import Mathlib

/-! Named-pipe example programs: `createnp`, `createf`, `callnp`.

A shallow embedding of the three C programs under `examples/pipes/`.

* Every Win32 call and every `malloc` is answered by an environment `OS σ`, a
  deterministic state machine over an arbitrary state type `σ`; theorems that
  quantify over `σ`, the machine and its start state cover every behaviour of
  the operating system.
* Every call the program issues is recorded, in program order, as an `Event`
  together with the answer it received. `printf` calls are events as well.
* `strtoul` and `atoi` come from the C library and are taken as a parameter
  `Libc`; `clib` is a concrete instance used to evaluate the programs.
* The only loop that can run forever is the relay loop
  `while (ReadFile(...) > 0) WriteFile(...)`; it takes a fuel argument that
  bounds the number of iterations.
-/

namespace Pipes

/-! ## Values -/

/-- One byte of payload. -/
abbrev BYTE := Fin 256

/-- A Win32 `HANDLE` as the programs use it: the null pointer the variables
`inFile` and `outFile` start with, the value `INVALID_HANDLE_VALUE` that
`CreateFile` and `CreateNamedPipe` return on failure, or a handle the system
issued. -/
inductive HANDLE where
  | NULL
  | INVALID_HANDLE_VALUE
  | valid (id : Nat)
  deriving DecidableEq, Repr

/-- Result of `CreateFile` / `CreateNamedPipe` as a `HANDLE`: the system either
issues a handle or returns `INVALID_HANDLE_VALUE`. -/
def HANDLE.ofResult : Option Nat → HANDLE
  | none => HANDLE.INVALID_HANDLE_VALUE
  | some n => HANDLE.valid n

/-- Conversion to a 32-bit `int`, as in the cast `(int)strtoul(...)` and in the
initialisation of an `int` variable with a `DWORD` constant. -/
def int32 (n : Int) : Int := (n + 2147483648) % 4294967296 - 2147483648

/-- Conversion of an `int` argument to the `DWORD` parameter it is passed for. -/
def dword (n : Int) : Nat := (n % 4294967296).toNat

/-! Windows SDK constants used by the programs (`Windows.h`). -/

def GENERIC_READ : Nat := 0x80000000
def GENERIC_WRITE : Nat := 0x40000000
def FILE_SHARE_READ : Nat := 1
def CREATE_ALWAYS : Nat := 2
def OPEN_EXISTING : Nat := 3
def FILE_ATTRIBUTE_NORMAL : Nat := 0x80
def PIPE_ACCESS_DUPLEX : Nat := 3
def PIPE_TYPE_BYTE : Nat := 0
def PIPE_WAIT : Nat := 0
def NMPWAIT_WAIT_FOREVER : Nat := 0xffffffff
def ERROR_PIPE_CONNECTED : Nat := 535

/-! ## C strings -/

/-- The character `str[k]` of a C string: a character of the string, the
terminator at `k = length`, and nothing beyond the terminator. -/
def charAt (str : String) (k : Nat) : Option Char :=
  if k < str.data.length then str.data.get? k
  else if k = str.data.length then some (Char.ofNat 0)
  else none

/-- The pointer `&str[k]` read as a C string: the suffix from `k`, defined as
long as `k` does not pass the terminator. -/
def suffixFrom (str : String) (k : Nat) : Option String :=
  if k ≤ str.data.length then some (String.mk (str.data.drop k)) else none

/-! ## Diagnostics -/

/-- The `printf` calls of the three programs, one constructor per call site
text (the option reference printed for `/?` is one constructor). -/
inductive Diag where
  | usage
  | mustSpecifyTarget
  | invalidSwitch
  | cannotOpenInFile (name : Option String)
  | cannotOpenOutFile (name : Option String)
  | noSuchOption
  | valuesMustBeInHex
  | strerror (errno : Nat)
  | createNamedPipeFailed (lastError : Nat)
  | connectNamedPipeFailed (lastError : Nat)
  | createFileFailed (lastError : Nat)
  | failedToAllocateBuffer
  | failedToAllocateBuffers
  | failedToReadFromInFile
  | waitNamedPipeFailed (lastError : Nat)
  | callNamedPipeFailed (lastError : Nat)
  | failedToWriteToOutFile
  | success
  deriving DecidableEq, Repr

/-- The format string of each `printf` call. -/
def Diag.format : Diag → String
  | .usage => "defaults\r\n"
  | .mustSpecifyTarget => "Error: must specify target\r\n"
  | .invalidSwitch => "Error: invalid switch\r\n"
  | .cannotOpenInFile _ => "Error: cannot open inFile: %s\r\n"
  | .cannotOpenOutFile _ => "Error: cannot open outFile: %s\r\n"
  | .noSuchOption => "Error: no such option\r\n"
  | .valuesMustBeInHex => "Error: values must be in hex.\r\n"
  | .strerror _ => "Error: %s\r\n"
  | .createNamedPipeFailed _ => "Error: CreateNamedPipe operation failed: %u\r\n"
  | .connectNamedPipeFailed _ => "Error: ConnectNamedPipe operation failed: %u\r\n"
  | .createFileFailed _ => "Error: CreateFile operation failed: %u\r\n"
  | .failedToAllocateBuffer => "Error: failed to allocate buffer\r\n"
  | .failedToAllocateBuffers => "Error: failed to allocate buffers\r\n"
  | .failedToReadFromInFile => "Error: failed to read from inFile\r\n"
  | .waitNamedPipeFailed _ => "Error: WaitNamedPipe operation failed: %u\r\n"
  | .callNamedPipeFailed _ => "Error: CallNamedPipe operation failed: %u\r\n"
  | .failedToWriteToOutFile => "Error: failed to write to outFile\r\n"
  | .success => "Success: operation performed successfully\r\n"

/-- A diagnostic is an error diagnostic when its text starts with `Error:`. -/
def Diag.isError (d : Diag) : Bool :=
  d.format.data.take 6 == "Error:".data

/-! ## Events and the environment -/

/-- One call issued by a program, with its arguments and the answer received. -/
inductive Event where
  | printf (d : Diag)
  | CreateFile (name : Option String) (access share disposition flags : Nat)
      (result : HANDLE)
  | CreateNamedPipe (name : String) (openMode pipeMode bufferSize : Nat)
      (result : HANDLE)
  | ConnectNamedPipe (h : HANDLE) (ret : Int)
  | DisconnectNamedPipe (h : HANDLE)
  | CloseHandle (h : HANDLE)
  | malloc (size : Int) (ok : Bool)
  | ReadFile (h : HANDLE) (size : Nat) (ret : Int) (data : List BYTE)
  | WriteFile (h : HANDLE) (data : List BYTE) (ret : Int) (written : Nat)
  | WaitNamedPipe (name : String) (ret : Int)
  | CallNamedPipe (name : String) (request : List BYTE) (capacity : Nat)
      (ret : Int) (response : List BYTE)
  deriving DecidableEq, Repr

/-- The operating system (and the allocator) as a deterministic state machine.
`DWORD` parameters are natural numbers (an `int` argument is converted with
`dword`), `malloc` receives the `int` it is called with. `CreateFile` and
`CreateNamedPipe` answer `none` for `INVALID_HANDLE_VALUE`; `BOOL` results are
the returned integer; `ReadFile` answers with the bytes it stored in the
buffer, `WriteFile` with the number of bytes it reports written,
`CallNamedPipe` with the bytes of the reply. -/
structure OS (σ : Type) where
  CreateFile : σ → Option String → Nat → Nat → Nat → Nat → Option Nat × σ
  CreateNamedPipe : σ → String → Nat → Nat → Nat → Option Nat × σ
  ConnectNamedPipe : σ → HANDLE → Int × σ
  DisconnectNamedPipe : σ → HANDLE → σ
  CloseHandle : σ → HANDLE → σ
  malloc : σ → Int → Bool × σ
  ReadFile : σ → HANDLE → Nat → (Int × List BYTE) × σ
  WriteFile : σ → HANDLE → List BYTE → (Int × Nat) × σ
  WaitNamedPipe : σ → String → Int × σ
  CallNamedPipe : σ → String → List BYTE → Nat → (Int × List BYTE) × σ
  GetLastError : σ → Nat

/-- How a run ended: `main` returned a code, the program performed an access
the C language leaves undefined (a read past a string terminator, a null
pointer handed to `strtoul` or `atoi`, `argv[1]` with `argc = 0`), or the relay
loop was still running when the fuel ran out. -/
inductive Status where
  | exit (code : Int)
  | undefined
  | outOfFuel
  deriving DecidableEq, Repr

/-- A run: the events in program order, the final state of the environment and
the way the run ended. -/
structure Run (σ : Type) where
  trace : List Event
  os : σ
  status : Status

/-! ## The relay loop

```c
while(ReadFile(inFile, buf, bufferSize, &bytesRead, NULL) > 0) {
    WriteFile(outFile, buf, bytesRead, &bytesRead, NULL);
}
```
-/

/-- Result of the relay loop: its events, the environment afterwards and
whether the loop was left (`false`: the fuel ran out first). -/
structure Relay (σ : Type) where
  trace : List Event
  os : σ
  finished : Bool

/-- The relay loop of `createnp.c` (lines 154-156) and `createf.c` (lines
198-200). `ReadFile` stores at most `bufferSize` bytes at the start of `buf`
and sets `bytesRead` to their number; `WriteFile` is offered the first
`bytesRead` bytes of `buf`, which are the bytes just read, and its result is
not looked at. One unit of fuel is one evaluation of the loop condition. -/
def relayLoop {σ : Type} (O : OS σ) (inFile outFile : HANDLE) (bufferSize : Int) :
    Nat → σ → Relay σ
  | 0, s => ⟨[], s, false⟩
  | fuel + 1, s =>
    let rd := O.ReadFile s inFile (dword bufferSize)
    let buf := rd.1.2.take (dword bufferSize)
    if rd.1.1 > 0 then
      let wr := O.WriteFile rd.2 outFile buf
      let rest := relayLoop O inFile outFile bufferSize fuel wr.2
      ⟨Event.ReadFile inFile (dword bufferSize) rd.1.1 buf
          :: Event.WriteFile outFile buf wr.1.1 wr.1.2 :: rest.trace,
        rest.os, rest.finished⟩
    else
      ⟨[Event.ReadFile inFile (dword bufferSize) rd.1.1 buf], rd.2, true⟩

/-! ## Observations on traces -/

/-- The chunks obtained by the successful reads of a trace (those on which the
loop condition `ReadFile(...) > 0` held), in order. -/
def chunksRead : List Event → List (List BYTE)
  | [] => []
  | Event.ReadFile _ _ ret data :: rest =>
    if ret > 0 then data :: chunksRead rest else chunksRead rest
  | _ :: rest => chunksRead rest

/-- The buffers offered to `WriteFile`, in order. -/
def offered : List Event → List (List BYTE)
  | [] => []
  | Event.WriteFile _ data _ _ :: rest => data :: offered rest
  | _ :: rest => offered rest

/-- The byte counts `WriteFile` reported as written, in order. -/
def accepted : List Event → List Nat
  | [] => []
  | Event.WriteFile _ _ _ written :: rest => written :: accepted rest
  | _ :: rest => accepted rest

/-- The bytes the sink received: of every buffer offered, the prefix whose
length `WriteFile` reported as written. -/
def delivered : List Event → List BYTE
  | [] => []
  | Event.WriteFile _ data _ written :: rest => data.take written ++ delivered rest
  | _ :: rest => delivered rest

/-- Number of `ReadFile` calls in a trace. -/
def readCalls : List Event → Nat
  | [] => 0
  | Event.ReadFile _ _ _ _ :: rest => readCalls rest + 1
  | _ :: rest => readCalls rest

/-- Shape of a relay trace: every read that satisfied the loop condition is
followed at once by one write to `outFile` that is offered exactly the bytes
just read, and only then by the next read; a read that did not satisfy the
condition is the last event. -/
def RelayShape (inFile outFile : HANDLE) (bufferSize : Int) : List Event → Prop
  | [] => True
  | [Event.ReadFile h size ret _] => h = inFile ∧ size = dword bufferSize ∧ ¬ ret > 0
  | Event.ReadFile h size ret data :: Event.WriteFile h' buf _ _ :: rest =>
    h = inFile ∧ size = dword bufferSize ∧ ret > 0 ∧ h' = outFile ∧ buf = data ∧
      RelayShape inFile outFile bufferSize rest
  | _ => False

/-! ## Concrete environments -/

/-- An environment in which every call fails and nothing changes. -/
def idleOS (σ : Type) : OS σ where
  CreateFile s _ _ _ _ _ := (none, s)
  CreateNamedPipe s _ _ _ _ := (none, s)
  ConnectNamedPipe s _ := (0, s)
  DisconnectNamedPipe s _ := s
  CloseHandle s _ := s
  malloc s _ := (false, s)
  ReadFile s _ _ := ((0, []), s)
  WriteFile s _ _ := ((0, 0), s)
  WaitNamedPipe s _ := (0, s)
  CallNamedPipe s _ _ _ := ((0, []), s)
  GetLastError _ := 0

/-- State of a source that delivers a fixed sequence of chunks, next to a sink
that keeps everything it is given. -/
structure Channel where
  pending : List (List BYTE)
  sink : List BYTE

/-- A source that delivers its pending chunks one per read and then reports
failure (the peer closed the pipe), with a sink that accepts every write in
full. -/
def chunkOS : OS Channel :=
  { idleOS Channel with
    ReadFile := fun s _ _ =>
      match s.pending with
      | [] => ((0, []), s)
      | c :: cs => ((1, c), ⟨cs, s.sink⟩)
    WriteFile := fun s _ data => ((1, data.length), ⟨s.pending, s.sink ++ data⟩) }

/-- A file source: a read succeeds with the next bytes of the file, at most as
many as asked for, and at the end of the file it succeeds with zero bytes. The
state is the unread rest of the file. -/
def fileOS : OS (List BYTE) :=
  { idleOS (List BYTE) with
    ReadFile := fun s _ size => ((1, s.take size), s.drop size)
    WriteFile := fun s _ data => ((1, data.length), s) }

/-! ## The C library -/

/-- The C library functions the programs call. Each answers with the value it
returns and the value it stores in `errno` (`0`: it leaves `errno` alone).
`strtoul` and `strtol` also take the base. -/
structure Libc where
  strtoul : String → Nat → Nat × Nat
  strtol : String → Nat → Int × Nat
  atoi : String → Int × Nat

/-- The C macro `#define hexstrtoui(s) ((int)strtoul((s), NULL, 16))` of
`createnp.c` and `createf.c`: the converted value and the `errno` that
`strtoul` stored. -/
def hexstrtoui (L : Libc) (s : String) : Int × Nat :=
  (int32 (L.strtoul s 16).1, (L.strtoul s 16).2)

/-- The scan of `hexstrtoi` in `callnp.c`: `false` as soon as a character is
neither `x` nor a decimal digit. -/
def hexstrtoiScan : List Char → Bool
  | [] => true
  | c :: cs => if c ≠ 'x' ∧ (c.toNat < 48 ∨ c.toNat > 57) then false else hexstrtoiScan cs

/-- The function `hexstrtoi` of `callnp.c` (lines 26-37): value and `errno`.
No function of `callnp.c` calls it. -/
def hexstrtoi (L : Libc) (str : String) : Int × Nat :=
  if hexstrtoiScan str.data then (int32 (L.strtol str 16).1, (L.strtol str 16).2)
  else (0, 1)

/-- White space in the sense of `isspace`. -/
def isSpace (c : Char) : Bool := c = ' ' ∨ (9 ≤ c.toNat ∧ c.toNat ≤ 13)

/-- Value of a character as a digit in the given base. -/
def digitValue (base : Nat) (c : Char) : Option Nat :=
  let v :=
    if 48 ≤ c.toNat ∧ c.toNat ≤ 57 then c.toNat - 48
    else if 97 ≤ c.toNat ∧ c.toNat ≤ 122 then c.toNat - 87
    else if 65 ≤ c.toNat ∧ c.toNat ≤ 90 then c.toNat - 55
    else base
  if v < base then some v else none

/-- The digits of the longest prefix made of digits of the base. -/
def leadingDigits (base : Nat) : List Char → List Nat
  | [] => []
  | c :: cs =>
    match digitValue base c with
    | some d => d :: leadingDigits base cs
    | none => []

/-- Sign and rest of a numeral after its leading white space. -/
def signAndRest (s : List Char) : Bool × List Char :=
  match s.dropWhile isSpace with
  | '-' :: r => (true, r)
  | '+' :: r => (false, r)
  | r => (false, r)

/-- Removal of a `0x` / `0X` prefix that is followed by a hexadecimal digit. -/
def dropHexPrefix : List Char → List Char
  | '0' :: x :: d :: r =>
    if (x = 'x' ∨ x = 'X') ∧ (digitValue 16 d).isSome then d :: r else '0' :: x :: d :: r
  | s => s

/-- Magnitude of the numeral at the start of `s`, `none` when there is no
digit at all (no conversion is performed). -/
def magnitude (base : Nat) (s : List Char) : Option Nat :=
  let body := if base = 16 then dropHexPrefix s else s
  match leadingDigits base body with
  | [] => none
  | ds => some (ds.foldl (fun a d => a * base + d) 0)

/-- A C library as on 32-bit `long` Windows: `strtoul` and `strtol` convert
the longest numeral at the start of the string, return 0 and leave `errno`
alone when there is none, and store `ERANGE` (34) only when the value does
not fit; `atoi` likewise. -/
def clib : Libc where
  strtoul str base :=
    match magnitude base (signAndRest str.data).2 with
    | none => (0, 0)
    | some v =>
      if v > 4294967295 then (4294967295, 34)
      else if (signAndRest str.data).1 then ((4294967296 - v) % 4294967296, 0)
      else (v, 0)
  strtol str base :=
    match magnitude base (signAndRest str.data).2 with
    | none => (0, 0)
    | some v =>
      if (signAndRest str.data).1 then
        if v > 2147483648 then (-2147483648, 34) else (-(v : Int), 0)
      else if v > 2147483647 then (2147483647, 34) else ((v : Int), 0)
  atoi str :=
    match magnitude 10 (signAndRest str.data).2 with
    | none => (0, 0)
    | some v =>
      if (signAndRest str.data).1 then
        if v > 2147483648 then (-2147483648, 34) else (-(v : Int), 0)
      else if v > 2147483647 then (2147483647, 34) else ((v : Int), 0)

/-! ## Pieces shared by the three `main` functions -/

/-- What one pass through the body of the option loop leads to: the loop goes
on with updated variables, `main` returns, or the behaviour is undefined. -/
inductive Step (α : Type) where
  | next (vars : α)
  | ret (code : Int)
  | undefined

/-- Events and environment after `CloseHandle` on each handle of a list, in
order. -/
def closeAll {σ : Type} (O : OS σ) (s : σ) : List HANDLE → σ
  | [] => s
  | h :: hs => closeAll O (O.CloseHandle s h) hs

/-- The backslash character. -/
def backslash : Char := Char.ofNat 92

/-- The `printf` of lines `if(argv[1][0] != '\\' && argv[1][1] != '\\')`: it is
not followed by a `return`. -/
def targetCheck (target : String) (c1 : Char) : List Event :=
  if charAt target 0 ≠ some backslash ∧ c1 ≠ backslash then
    [Event.printf Diag.mustSpecifyTarget]
  else []

/-- The `printf` of `if(argv[i][0] != '/')`: it is not followed by a `return`. -/
def switchCheck (sw : String) : List Event :=
  if charAt sw 0 ≠ some '/' then [Event.printf Diag.invalidSwitch] else []

/-! ## `createnp.c` -/

/-- The local variables of `createnp.c` that the option loop sets. -/
structure NpVars where
  inFile : HANDLE
  outFile : HANDLE
  openMode : Int
  pipeMode : Int
  bufferSize : Int

/-- Values at the start of `main` (`createnp.c`, lines 36-40). -/
def NpVars.init : NpVars :=
  ⟨HANDLE.NULL, HANDLE.NULL, int32 PIPE_ACCESS_DUPLEX, int32 (PIPE_TYPE_BYTE ||| PIPE_WAIT : Nat),
    65535⟩

/-- The exit `if(errno)` at the end of the loop body of `createnp.c` (lines
118-123), reached with the variables `v` after a conversion stored `errno`. -/
def npAfterSwitch {σ : Type} (O : OS σ) (pre : List Event) (errno : Nat) (v : NpVars)
    (s : σ) : List Event × σ × Step NpVars :=
  if errno ≠ 0 then
    (pre ++ [Event.printf Diag.valuesMustBeInHex, Event.CloseHandle v.inFile,
        Event.CloseHandle v.outFile],
      closeAll O s [v.inFile, v.outFile], Step.ret 0)
  else (pre, s, Step.next v)

/-- One pass through the body of the option loop of `createnp.c` (lines
82-123), for the switch `sw = argv[i]` and the value `val = argv[i+1]`, which
is the null pointer `argv[argc]` when the switch is the last argument. -/
def npOption {σ : Type} (L : Libc) (O : OS σ) (sw : String) (val : Option String)
    (v : NpVars) (s : σ) : List Event × σ × Step NpVars :=
  let pre := switchCheck sw
  match charAt sw 1 with
  | none => (pre, s, Step.undefined)
  | some c =>
    if c = 'I' then
      let r := O.CreateFile s val GENERIC_READ FILE_SHARE_READ OPEN_EXISTING
        FILE_ATTRIBUTE_NORMAL
      let ev := Event.CreateFile val GENERIC_READ FILE_SHARE_READ OPEN_EXISTING
        FILE_ATTRIBUTE_NORMAL (HANDLE.ofResult r.1)
      if HANDLE.ofResult r.1 = HANDLE.INVALID_HANDLE_VALUE then
        (pre ++ [ev, Event.printf (Diag.cannotOpenInFile val), Event.CloseHandle v.outFile],
          O.CloseHandle r.2 v.outFile, Step.ret 0)
      else (pre ++ [ev], r.2, Step.next { v with inFile := HANDLE.ofResult r.1 })
    else if c = 'O' then
      let r := O.CreateFile s val GENERIC_WRITE 0 CREATE_ALWAYS FILE_ATTRIBUTE_NORMAL
      let ev := Event.CreateFile val GENERIC_WRITE 0 CREATE_ALWAYS FILE_ATTRIBUTE_NORMAL
        (HANDLE.ofResult r.1)
      if HANDLE.ofResult r.1 = HANDLE.INVALID_HANDLE_VALUE then
        (pre ++ [ev, Event.printf (Diag.cannotOpenOutFile val), Event.CloseHandle v.inFile],
          O.CloseHandle r.2 v.inFile, Step.ret 0)
      else (pre ++ [ev], r.2, Step.next { v with outFile := HANDLE.ofResult r.1 })
    else if c = 'M' then
      match val with
      | none => (pre, s, Step.undefined)
      | some str =>
        npAfterSwitch O pre (hexstrtoui L str).2 { v with openMode := (hexstrtoui L str).1 } s
    else if c = 'P' then
      match val with
      | none => (pre, s, Step.undefined)
      | some str =>
        npAfterSwitch O pre (hexstrtoui L str).2 { v with pipeMode := (hexstrtoui L str).1 } s
    else if c = 'B' then
      match val with
      | none => (pre, s, Step.undefined)
      | some str =>
        npAfterSwitch O pre (L.atoi str).2 { v with bufferSize := (L.atoi str).1 } s
    else
      (pre ++ [Event.printf Diag.noSuchOption, Event.CloseHandle v.inFile,
          Event.CloseHandle v.outFile],
        closeAll O s [v.inFile, v.outFile], Step.ret 0)

/-- The option loop `for(i = 2; i < argc; i++)` of `createnp.c` over the
arguments from `argv[i]` on. The body advances `i` once more, so a pass
consumes a switch and its value. -/
def npOptions {σ : Type} (L : Libc) (O : OS σ) :
    List String → NpVars → σ → List Event × σ × Step NpVars
  | [], v, s => ([], s, Step.next v)
  | [sw], v, s => npOption L O sw none v s
  | sw :: val :: rest, v, s =>
    match npOption L O sw (some val) v s with
    | (evs, s1, Step.next v1) =>
      ((evs ++ (npOptions L O rest v1 s1).1), (npOptions L O rest v1 s1).2)
    | r => r

/-- Lines 125-162 of `createnp.c`: create the pipe, wait for the peer,
allocate the buffer, relay, release. The instance count 1 and the time-out
`NMPWAIT_WAIT_FOREVER` of `CreateNamedPipe` are the same in every call and
are not passed to the environment; the in and out buffer sizes are both
`bufferSize`. -/
def npServe {σ : Type} (O : OS σ) (fuel : Nat) (target : String) (v : NpVars) (s : σ) :
    Run σ :=
  let cp := O.CreateNamedPipe s target (dword v.openMode) (dword v.pipeMode)
    (dword v.bufferSize)
  let h := HANDLE.ofResult cp.1
  let e1 := Event.CreateNamedPipe target (dword v.openMode) (dword v.pipeMode)
    (dword v.bufferSize) h
  if h = HANDLE.INVALID_HANDLE_VALUE then
    ⟨[e1, Event.printf (Diag.createNamedPipeFailed (O.GetLastError cp.2)),
        Event.CloseHandle v.inFile, Event.CloseHandle v.outFile],
      closeAll O cp.2 [v.inFile, v.outFile], Status.exit 0⟩
  else
    let cn := O.ConnectNamedPipe cp.2 h
    let e2 := Event.ConnectNamedPipe h cn.1
    if cn.1 = 0 ∧ O.GetLastError cn.2 ≠ ERROR_PIPE_CONNECTED then
      ⟨[e1, e2, Event.printf (Diag.connectNamedPipeFailed (O.GetLastError cn.2)),
          Event.CloseHandle v.inFile, Event.CloseHandle v.outFile, Event.CloseHandle h],
        closeAll O cn.2 [v.inFile, v.outFile, h], Status.exit 0⟩
    else
      let m := O.malloc cn.2 v.bufferSize
      let e3 := Event.malloc v.bufferSize m.1
      if m.1 = false then
        ⟨[e1, e2, e3, Event.printf Diag.failedToAllocateBuffer,
            Event.CloseHandle v.inFile, Event.CloseHandle v.outFile,
            Event.DisconnectNamedPipe h, Event.CloseHandle h],
          O.CloseHandle (O.DisconnectNamedPipe (closeAll O m.2 [v.inFile, v.outFile]) h) h,
          Status.exit 0⟩
      else
        let inFile := if v.inFile = HANDLE.NULL then h else v.inFile
        let outFile := if v.outFile = HANDLE.NULL then h else v.outFile
        let rl := relayLoop O inFile outFile v.bufferSize fuel m.2
        if rl.finished = false then
          ⟨[e1, e2, e3] ++ rl.trace, rl.os, Status.outOfFuel⟩
        else
          ⟨[e1, e2, e3] ++ rl.trace ++
              [Event.printf Diag.success, Event.CloseHandle inFile,
                Event.CloseHandle outFile, Event.DisconnectNamedPipe h, Event.CloseHandle h],
            O.CloseHandle (O.DisconnectNamedPipe (closeAll O rl.os [inFile, outFile]) h) h,
            Status.exit 1⟩

/-- The function `main` of `createnp.c`, with `argc = argv.length`. -/
def createnp {σ : Type} (L : Libc) (O : OS σ) (fuel : Nat) (argv : List String) (s : σ) :
    Run σ :=
  match argv with
  | [] => ⟨[], s, Status.undefined⟩
  | [_] => ⟨[Event.printf Diag.usage], s, Status.exit 0⟩
  | _ :: target :: opts =>
    match charAt target 1 with
    | none => ⟨[], s, Status.undefined⟩
    | some c1 =>
      if c1 = '?' then ⟨[Event.printf Diag.usage], s, Status.exit 0⟩
      else
        match npOptions L O opts NpVars.init s with
        | (evs, s1, Step.ret code) => ⟨targetCheck target c1 ++ evs, s1, Status.exit code⟩
        | (evs, s1, Step.undefined) => ⟨targetCheck target c1 ++ evs, s1, Status.undefined⟩
        | (evs, s1, Step.next v) =>
          ⟨targetCheck target c1 ++ evs ++ (npServe O fuel target v s1).trace,
            (npServe O fuel target v s1).os, (npServe O fuel target v s1).status⟩

/-! ## `createf.c` -/

/-- The local variables of `createf.c` that the option loop sets. -/
structure CfVars where
  inFile : HANDLE
  outFile : HANDLE
  desiredAccess : Int
  shareMode : Int
  disposition : Int
  flags : Int
  bufferSize : Int

/-- Values at the start of `main` (`createf.c`, lines 37-43). -/
def CfVars.init : CfVars :=
  ⟨HANDLE.NULL, HANDLE.NULL, int32 GENERIC_READ, 0, int32 CREATE_ALWAYS,
    int32 FILE_ATTRIBUTE_NORMAL, 65535⟩

/-- The exit `if(errno)` at the end of the loop body of `createf.c` (lines
169-172): it returns without closing a handle. -/
def cfAfterSwitch {σ : Type} (pre : List Event) (errno : Nat) (v : CfVars) (s : σ) :
    List Event × σ × Step CfVars :=
  if errno ≠ 0 then (pre ++ [Event.printf (Diag.strerror errno)], s, Step.ret 0)
  else (pre, s, Step.next v)

/-- One pass through the body of the option loop of `createf.c` (lines
132-172). The value of `/A` is converted from its third character on,
`&argv[i][2]`. There is no `case 'B'`. -/
def cfOption {σ : Type} (L : Libc) (O : OS σ) (sw : String) (val : Option String)
    (v : CfVars) (s : σ) : List Event × σ × Step CfVars :=
  let pre := switchCheck sw
  match charAt sw 1 with
  | none => (pre, s, Step.undefined)
  | some c =>
    if c = 'A' then
      match val.bind (fun str => suffixFrom str 2) with
      | none => (pre, s, Step.undefined)
      | some str =>
        cfAfterSwitch pre (hexstrtoui L str).2
          { v with desiredAccess := (hexstrtoui L str).1 } s
    else if c = 'S' then
      match val with
      | none => (pre, s, Step.undefined)
      | some str =>
        cfAfterSwitch pre (hexstrtoui L str).2 { v with shareMode := (hexstrtoui L str).1 } s
    else if c = 'D' then
      match val with
      | none => (pre, s, Step.undefined)
      | some str =>
        cfAfterSwitch pre (hexstrtoui L str).2 { v with disposition := (hexstrtoui L str).1 } s
    else if c = 'F' then
      match val with
      | none => (pre, s, Step.undefined)
      | some str =>
        cfAfterSwitch pre (hexstrtoui L str).2 { v with flags := (hexstrtoui L str).1 } s
    else if c = 'I' then
      let r := O.CreateFile s val GENERIC_READ FILE_SHARE_READ OPEN_EXISTING
        FILE_ATTRIBUTE_NORMAL
      let ev := Event.CreateFile val GENERIC_READ FILE_SHARE_READ OPEN_EXISTING
        FILE_ATTRIBUTE_NORMAL (HANDLE.ofResult r.1)
      if HANDLE.ofResult r.1 = HANDLE.INVALID_HANDLE_VALUE then
        (pre ++ [ev, Event.printf (Diag.cannotOpenInFile val), Event.CloseHandle v.outFile],
          O.CloseHandle r.2 v.outFile, Step.ret 0)
      else (pre ++ [ev], r.2, Step.next { v with inFile := HANDLE.ofResult r.1 })
    else if c = 'O' then
      let r := O.CreateFile s val GENERIC_WRITE 0 CREATE_ALWAYS FILE_ATTRIBUTE_NORMAL
      let ev := Event.CreateFile val GENERIC_WRITE 0 CREATE_ALWAYS FILE_ATTRIBUTE_NORMAL
        (HANDLE.ofResult r.1)
      if HANDLE.ofResult r.1 = HANDLE.INVALID_HANDLE_VALUE then
        (pre ++ [ev, Event.printf (Diag.cannotOpenOutFile val), Event.CloseHandle v.inFile],
          O.CloseHandle r.2 v.inFile, Step.ret 0)
      else (pre ++ [ev], r.2, Step.next { v with outFile := HANDLE.ofResult r.1 })
    else (pre ++ [Event.printf Diag.noSuchOption], s, Step.ret 0)

/-- The option loop `for(i = 2; i < argc; i++)` of `createf.c`. -/
def cfOptions {σ : Type} (L : Libc) (O : OS σ) :
    List String → CfVars → σ → List Event × σ × Step CfVars
  | [], v, s => ([], s, Step.next v)
  | [sw], v, s => cfOption L O sw none v s
  | sw :: val :: rest, v, s =>
    match cfOption L O sw (some val) v s with
    | (evs, s1, Step.next v1) =>
      ((evs ++ (cfOptions L O rest v1 s1).1), (cfOptions L O rest v1 s1).2)
    | r => r

/-- Lines 175-206 of `createf.c`: allocate the buffer, open the target, relay
when an input or output file was given, release. -/
def cfOpen {σ : Type} (O : OS σ) (fuel : Nat) (target : String) (v : CfVars) (s : σ) :
    Run σ :=
  let m := O.malloc s v.bufferSize
  let e1 := Event.malloc v.bufferSize m.1
  if m.1 = false then
    ⟨[e1, Event.printf Diag.failedToAllocateBuffer, Event.CloseHandle v.inFile,
        Event.CloseHandle v.outFile],
      closeAll O m.2 [v.inFile, v.outFile], Status.exit 0⟩
  else
    let cf := O.CreateFile m.2 (some target) (dword v.desiredAccess) (dword v.shareMode)
      (dword v.disposition) (dword v.flags)
    let h := HANDLE.ofResult cf.1
    let e2 := Event.CreateFile (some target) (dword v.desiredAccess) (dword v.shareMode)
      (dword v.disposition) (dword v.flags) h
    if h = HANDLE.INVALID_HANDLE_VALUE then
      ⟨[e1, e2, Event.printf (Diag.createFileFailed (O.GetLastError cf.2)),
          Event.CloseHandle v.inFile, Event.CloseHandle v.outFile],
        closeAll O cf.2 [v.inFile, v.outFile], Status.exit 0⟩
    else if v.inFile ≠ HANDLE.NULL ∨ v.outFile ≠ HANDLE.NULL then
      let inFile := if v.inFile = HANDLE.NULL then h else v.inFile
      let outFile := if v.outFile = HANDLE.NULL then h else v.outFile
      let rl := relayLoop O inFile outFile v.bufferSize fuel cf.2
      if rl.finished = false then
        ⟨[e1, e2] ++ rl.trace, rl.os, Status.outOfFuel⟩
      else
        ⟨[e1, e2] ++ rl.trace ++
            [Event.printf Diag.success, Event.CloseHandle inFile, Event.CloseHandle outFile,
              Event.CloseHandle h],
          closeAll O rl.os [inFile, outFile, h], Status.exit 1⟩
    else
      ⟨[e1, e2, Event.printf Diag.success, Event.CloseHandle v.inFile,
          Event.CloseHandle v.outFile, Event.CloseHandle h],
        closeAll O cf.2 [v.inFile, v.outFile, h], Status.exit 1⟩

/-- The function `main` of `createf.c`, with `argc = argv.length`. -/
def createf {σ : Type} (L : Libc) (O : OS σ) (fuel : Nat) (argv : List String) (s : σ) :
    Run σ :=
  match argv with
  | [] => ⟨[], s, Status.undefined⟩
  | [_] => ⟨[Event.printf Diag.usage], s, Status.exit 0⟩
  | _ :: target :: opts =>
    match charAt target 1 with
    | none => ⟨[], s, Status.undefined⟩
    | some c1 =>
      if c1 = '?' then ⟨[Event.printf Diag.usage], s, Status.exit 0⟩
      else
        match cfOptions L O opts CfVars.init s with
        | (evs, s1, Step.ret code) => ⟨targetCheck target c1 ++ evs, s1, Status.exit code⟩
        | (evs, s1, Step.undefined) => ⟨targetCheck target c1 ++ evs, s1, Status.undefined⟩
        | (evs, s1, Step.next v) =>
          ⟨targetCheck target c1 ++ evs ++ (cfOpen O fuel target v s1).trace,
            (cfOpen O fuel target v s1).os, (cfOpen O fuel target v s1).status⟩

/-! ## `callnp.c` -/

/-- The local variables of `callnp.c` that the option loop sets. -/
structure CallVars where
  inFile : HANDLE
  outFile : HANDLE
  bufferSize : Int

/-- Values at the start of `main` (`callnp.c`, lines 47-49). -/
def CallVars.init : CallVars := ⟨HANDLE.NULL, HANDLE.NULL, 65535⟩

/-- The exit `if(errno)` at the end of the loop body of `callnp.c` (lines
94-97). -/
def callAfterSwitch {σ : Type} (pre : List Event) (errno : Nat) (v : CallVars) (s : σ) :
    List Event × σ × Step CallVars :=
  if errno ≠ 0 then (pre ++ [Event.printf Diag.valuesMustBeInHex], s, Step.ret 0)
  else (pre, s, Step.next v)

/-- One pass through the body of the option loop of `callnp.c` (lines 68-97).
After `inFile = CreateFile(...)` the test at line 75 reads `outFile`. -/
def callOption {σ : Type} (L : Libc) (O : OS σ) (sw : String) (val : Option String)
    (v : CallVars) (s : σ) : List Event × σ × Step CallVars :=
  let pre := switchCheck sw
  match charAt sw 1 with
  | none => (pre, s, Step.undefined)
  | some c =>
    if c = 'I' then
      let r := O.CreateFile s val GENERIC_READ FILE_SHARE_READ OPEN_EXISTING
        FILE_ATTRIBUTE_NORMAL
      let ev := Event.CreateFile val GENERIC_READ FILE_SHARE_READ OPEN_EXISTING
        FILE_ATTRIBUTE_NORMAL (HANDLE.ofResult r.1)
      if v.outFile = HANDLE.INVALID_HANDLE_VALUE then
        (pre ++ [ev, Event.printf (Diag.cannotOpenInFile val)], r.2, Step.ret 0)
      else (pre ++ [ev], r.2, Step.next { v with inFile := HANDLE.ofResult r.1 })
    else if c = 'O' then
      let r := O.CreateFile s val GENERIC_WRITE 0 CREATE_ALWAYS FILE_ATTRIBUTE_NORMAL
      let ev := Event.CreateFile val GENERIC_WRITE 0 CREATE_ALWAYS FILE_ATTRIBUTE_NORMAL
        (HANDLE.ofResult r.1)
      if HANDLE.ofResult r.1 = HANDLE.INVALID_HANDLE_VALUE then
        (pre ++ [ev, Event.printf (Diag.cannotOpenOutFile val)], r.2, Step.ret 0)
      else (pre ++ [ev], r.2, Step.next { v with outFile := HANDLE.ofResult r.1 })
    else if c = 'B' then
      match val with
      | none => (pre, s, Step.undefined)
      | some str =>
        callAfterSwitch pre (L.atoi str).2 { v with bufferSize := (L.atoi str).1 } s
    else (pre ++ [Event.printf Diag.noSuchOption], s, Step.ret 0)

/-- The option loop `for(i = 2; i < argc; i++)` of `callnp.c`. -/
def callOptions {σ : Type} (L : Libc) (O : OS σ) :
    List String → CallVars → σ → List Event × σ × Step CallVars
  | [], v, s => ([], s, Step.next v)
  | [sw], v, s => callOption L O sw none v s
  | sw :: val :: rest, v, s =>
    match callOption L O sw (some val) v s with
    | (evs, s1, Step.next v1) =>
      ((evs ++ (callOptions L O rest v1 s1).1), (callOptions L O rest v1 s1).2)
    | r => r

/-- Lines 113-121 of `callnp.c`: the transaction with the request `request`
(the first `bytesRead` bytes of `send_buf`), the write of the reply to the
output file, whose failure is reported without a `return`, and the end of
`main`. -/
def callTransact {σ : Type} (O : OS σ) (target : String) (v : CallVars)
    (request : List BYTE) (s : σ) : Run σ :=
  let cl := O.CallNamedPipe s target request (dword v.bufferSize)
  let reply := cl.1.2.take (dword v.bufferSize)
  let e := Event.CallNamedPipe target request (dword v.bufferSize) cl.1.1 reply
  if cl.1.1 = 0 then
    ⟨[e, Event.printf (Diag.callNamedPipeFailed (O.GetLastError cl.2))], cl.2, Status.exit 0⟩
  else if v.outFile ≠ HANDLE.NULL then
    let wr := O.WriteFile cl.2 v.outFile reply
    if wr.1.1 = 0 then
      ⟨[e, Event.WriteFile v.outFile reply wr.1.1 wr.1.2,
          Event.printf Diag.failedToWriteToOutFile, Event.printf Diag.success],
        wr.2, Status.exit 1⟩
    else
      ⟨[e, Event.WriteFile v.outFile reply wr.1.1 wr.1.2, Event.printf Diag.success],
        wr.2, Status.exit 1⟩
  else ⟨[e, Event.printf Diag.success], cl.2, Status.exit 1⟩

/-- Lines 109-121 of `callnp.c`: wait for the pipe, then the transaction. -/
def callWait {σ : Type} (O : OS σ) (target : String) (v : CallVars)
    (request : List BYTE) (s : σ) : Run σ :=
  let w := O.WaitNamedPipe s target
  let e := Event.WaitNamedPipe target w.1
  if w.1 = 0 then
    ⟨[e, Event.printf (Diag.waitNamedPipeFailed (O.GetLastError w.2))], w.2, Status.exit 0⟩
  else
    ⟨e :: (callTransact O target v request w.2).trace, (callTransact O target v request w.2).os,
      (callTransact O target v request w.2).status⟩

/-- Lines 99-121 of `callnp.c`: allocate both buffers, read the request from
the input file when there is one (`bytesRead` is 0 otherwise), wait, call. -/
def callBody {σ : Type} (O : OS σ) (target : String) (v : CallVars) (s : σ) : Run σ :=
  let m1 := O.malloc s v.bufferSize
  let m2 := O.malloc m1.2 v.bufferSize
  let e1 := Event.malloc v.bufferSize m1.1
  let e2 := Event.malloc v.bufferSize m2.1
  if m1.1 = false ∨ m2.1 = false then
    ⟨[e1, e2, Event.printf Diag.failedToAllocateBuffers], m2.2, Status.exit 0⟩
  else if v.inFile ≠ HANDLE.NULL then
    let rd := O.ReadFile m2.2 v.inFile (dword v.bufferSize)
    let buf := rd.1.2.take (dword v.bufferSize)
    let e3 := Event.ReadFile v.inFile (dword v.bufferSize) rd.1.1 buf
    if rd.1.1 = 0 then
      ⟨[e1, e2, e3, Event.printf Diag.failedToReadFromInFile], rd.2, Status.exit 0⟩
    else
      ⟨[e1, e2, e3] ++ (callWait O target v buf rd.2).trace, (callWait O target v buf rd.2).os,
        (callWait O target v buf rd.2).status⟩
  else
    ⟨[e1, e2] ++ (callWait O target v [] m2.2).trace, (callWait O target v [] m2.2).os,
      (callWait O target v [] m2.2).status⟩

/-- The function `main` of `callnp.c`, with `argc = argv.length`. The program
has no loop besides the option loop, so it needs no fuel. -/
def callnp {σ : Type} (L : Libc) (O : OS σ) (argv : List String) (s : σ) : Run σ :=
  match argv with
  | [] => ⟨[], s, Status.undefined⟩
  | [_] => ⟨[Event.printf Diag.usage], s, Status.exit 0⟩
  | _ :: target :: opts =>
    match charAt target 1 with
    | none => ⟨[], s, Status.undefined⟩
    | some c1 =>
      if c1 = '?' then ⟨[Event.printf Diag.usage], s, Status.exit 0⟩
      else
        match callOptions L O opts CallVars.init s with
        | (evs, s1, Step.ret code) => ⟨targetCheck target c1 ++ evs, s1, Status.exit code⟩
        | (evs, s1, Step.undefined) => ⟨targetCheck target c1 ++ evs, s1, Status.undefined⟩
        | (evs, s1, Step.next v) =>
          ⟨targetCheck target c1 ++ evs ++ (callBody O target v s1).trace,
            (callBody O target v s1).os, (callBody O target v s1).status⟩

/-! ## A scripted environment -/

/-- State of the scripted environment: for each kind of call the answers still
to be given, in order. When a list is used up the call fails, except that
`ReadFile` then answers `eof` and `WriteFile` answers `full`. -/
structure Script where
  files : List (Option Nat) := []
  pipes : List (Option Nat) := []
  connects : List Int := []
  mallocs : List Bool := []
  reads : List (Int × List BYTE) := []
  eof : Int × List BYTE := (0, [])
  writes : List (Int × Nat) := []
  full : Int × Nat := (0, 0)
  waits : List Int := []
  calls : List (Int × List BYTE) := []
  lastError : Nat := 0

/-- The environment that answers from a `Script`. -/
def scriptOS : OS Script where
  CreateFile s _ _ _ _ _ := (s.files.headD none, { s with files := s.files.tail })
  CreateNamedPipe s _ _ _ _ := (s.pipes.headD none, { s with pipes := s.pipes.tail })
  ConnectNamedPipe s _ := (s.connects.headD 0, { s with connects := s.connects.tail })
  DisconnectNamedPipe s _ := s
  CloseHandle s _ := s
  malloc s _ := (s.mallocs.headD false, { s with mallocs := s.mallocs.tail })
  ReadFile s _ _ := (s.reads.headD s.eof, { s with reads := s.reads.tail })
  WriteFile s _ _ := (s.writes.headD s.full, { s with writes := s.writes.tail })
  WaitNamedPipe s _ := (s.waits.headD 0, { s with waits := s.waits.tail })
  CallNamedPipe s _ _ _ := (s.calls.headD (0, []), { s with calls := s.calls.tail })
  GetLastError s := s.lastError

/-! ## Further observations on traces -/

/-- Whether a trace holds a `printf` of an error diagnostic. -/
def printedError : List Event → Bool
  | [] => false
  | Event.printf d :: rest => d.isError || printedError rest
  | _ :: rest => printedError rest

/-- The events the option loops produce: `printf`, `CreateFile` and
`CloseHandle`. -/
def Event.isOptionEvent : Event → Bool
  | Event.printf _ => true
  | Event.CreateFile _ _ _ _ _ _ => true
  | Event.CloseHandle _ => true
  | _ => false

/-- The handles that are open after the events `evs` when the handles of
`held` were open before: a handle issued by `CreateFile` or `CreateNamedPipe`
becomes open, `CloseHandle` closes it. -/
def openAfter (held : List HANDLE) : List Event → List HANDLE
  | [] => held
  | Event.CreateFile _ _ _ _ _ (HANDLE.valid n) :: rest =>
    openAfter (HANDLE.valid n :: held) rest
  | Event.CreateNamedPipe _ _ _ _ (HANDLE.valid n) :: rest =>
    openAfter (HANDLE.valid n :: held) rest
  | Event.CloseHandle h :: rest => openAfter (held.filter (fun x => x ≠ h)) rest
  | _ :: rest => openAfter held rest

/-- The handles a run leaves open. -/
def leaked (trace : List Event) : List HANDLE := openAfter [] trace

/-- Every handle of `held` is a non-null handle that one of the variables
`inFile`, `outFile` holds. -/
def HeldBy (inFile outFile : HANDLE) (held : List HANDLE) : Prop :=
  ∀ x ∈ held, x ≠ HANDLE.NULL ∧ (x = inFile ∨ x = outFile)

/-- The diagnostics of the two exits of the option loop of `createf.c` that
return without a `CloseHandle`: `Error: no such option` (line 166) and the
`errno` exit (line 170). -/
def Event.isPlainExit : Event → Bool
  | Event.printf Diag.noSuchOption => true
  | Event.printf (Diag.strerror _) => true
  | _ => false

/-- Whether a run of `createf` went through one of these two exits. -/
def plainExit (evs : List Event) : Bool := evs.any Event.isPlainExit

/-- The letters `argv[i][1]` the option loop switches on, for the arguments
from `argv[2]` on: every second argument is a switch. -/
def switchLetters : List String → List (Option Char)
  | [] => []
  | [sw] => [charAt sw 1]
  | sw :: _ :: rest => charAt sw 1 :: switchLetters rest

/-- The buffer size an argument list asks for, in the words of the usage
text: the `atoi` value of the last `/B` option, and `current` (65535 at the
start) when there is none. -/
def requestedBufferSize (L : Libc) : List String → Int → Int
  | [], current => current
  | [_], current => current
  | sw :: val :: rest, current =>
    requestedBufferSize L rest (if charAt sw 1 = some 'B' then (L.atoi val).1 else current)

/-! ## Example runs -/

/-- The ten bytes 0, 1, ..., 9 used as file content in the examples. -/
def tenBytes : List BYTE := [0, 1, 2, 3, 4, 5, 6, 7, 8, 9]

/-- A pipe server environment: the pipe is created as handle 7, a client
connects, the buffer is allocated, and the client has closed its end, so the
first read fails. -/
def serverScript : Script :=
  { pipes := [some 7], connects := [1], mallocs := [true] }

/-- As `serverScript`, with an output file opened as handle 3; the client
sends two one-byte chunks and then closes; the first write to the output file
fails, the second succeeds. -/
def failingWriteScript : Script :=
  { files := [some 3], pipes := [some 7], connects := [1], mallocs := [true],
    reads := [(1, [1]), (1, [2])], writes := [(0, 0), (1, 1)] }

/-- A pipe client environment: both buffers are allocated, the wait succeeds
and the server answers the transaction with `PONG`; every `CreateFile` fails. -/
def clientScript : Script :=
  { mallocs := [true, true], waits := [1], calls := [(1, [80, 79, 78, 71])] }

/-- As `clientScript`, with one file opened as handle 3, and the four bytes
`PING` read from it. -/
def clientFileScript : Script :=
  { files := [some 3], mallocs := [true, true], reads := [(1, [80, 73, 78, 71])],
    waits := [1], calls := [(1, [80, 79, 78, 71])] }

/-- As `serverScript`, with an input file of ten bytes opened as handle 3: the
first read returns the ten bytes, every later read succeeds with zero bytes
(end of file); every write succeeds. -/
def fileInputScript : Script :=
  { files := [some 3], pipes := [some 7], connects := [1], mallocs := [true],
    reads := [(1, tenBytes)], eof := (1, []), writes := [(1, 10)], full := (1, 0) }

/-- As `serverScript`, with two files opened as handles 3 and 5. -/
def serverFilesScript : Script :=
  { files := [some 3, some 5], pipes := [some 7], connects := [1], mallocs := [true] }

/-- An environment for `createf`: the buffer is allocated and files open as
handles 3 and 5. -/
def fileScript : Script :=
  { files := [some 3, some 5], mallocs := [true] }

/-! ## Reads of the argument vector in the option loops -/

/-- A read the option loop makes of its argument vector: the pointer
`argv[index]`, or the character `argv[index][offset]`. -/
inductive Access where
  | arg (index : Nat)
  | char (index offset : Nat)
  deriving DecidableEq, Repr

/-- Whether a read stays inside the arguments `argv[0]` ... `argv[argc - 1]`
and, for a character, inside the string, its terminator included. -/
def Access.inBounds (argv : List String) : Access → Bool
  | Access.arg i => decide (i < argv.length)
  | Access.char i k =>
    match argv.get? i with
    | some str => decide (k ≤ str.data.length)
    | none => false

/-- Whether a read is of `argv[0]` ... `argv[argc]`, the null pointer that ends
the vector included, and, for a character, of one of the first two characters
of an argument. -/
def Access.upToArgc (argc : Nat) : Access → Bool
  | Access.arg i => decide (i ≤ argc)
  | Access.char i k => decide (i < argc) && decide (k ≤ 1)

/-- As `Access.upToArgc`, with the reads that start at the third character,
`&argv[i][2]`, of `argv[0]` ... `argv[argc]`. -/
def Access.upToArgcFromThird (argc : Nat) : Access → Bool
  | Access.arg i => decide (i ≤ argc)
  | Access.char i k =>
    (decide (i < argc) && decide (k ≤ 1)) || (decide (i ≤ argc) && decide (k = 2))

/-- The case labels of `createnp.c` (lines 87-111) whose code reads `argv[i]`
after the increment in `switch(argv[i++][1])`. -/
def npValued : List Char := ['I', 'O', 'M', 'P', 'B']

/-- The case labels of `createf.c` (lines 137-164) whose code reads `argv[i]`
after the increment. -/
def cfValued : List Char := ['A', 'S', 'D', 'F', 'I', 'O']

/-- The case label of `createf.c` whose code converts from the third character
of the value on: `hexstrtoui(&argv[i][2])` under `case 'A'` (line 138). -/
def cfFromThird : List Char := ['A']

/-- The case labels of `callnp.c` (lines 73-89) whose code reads `argv[i]`
after the increment. -/
def callValued : List Char := ['I', 'O', 'B']

/-- The reads of one pass through the loop body that starts with `i` at the
switch `sw = argv[i]`: `argv[i][0]` in the test of the switch character,
`argv[i][1]` in the `switch`, under a case label of `valued` the pointer
`argv[i+1]` (once, however often the case names it), and under a case label
of `fromThird` the character `argv[i+1][2]`, where `strtoul` starts to read
when it is handed `&argv[i+1][2]`. When `argv[i][1]` lies past the terminator
the behaviour is undefined and nothing more is recorded. What a library
function reads after the first character of the string it is handed is not
recorded. -/
def passAccesses (valued fromThird : List Char) (i : Nat) (sw : String) : List Access :=
  [Access.arg i, Access.char i 0, Access.arg i, Access.char i 1] ++
    match charAt sw 1 with
    | some c =>
      (if c ∈ valued then [Access.arg (i + 1)] else []) ++
        (if c ∈ fromThird then [Access.char (i + 1) 2] else [])
    | none => []

/-- The reads of the loop `for(i = 2; i < argc; i++)` from index `i` on, where
`body` is the loop body of the program: a pass is followed by the next one,
two arguments further, when the body neither returned nor was undefined. -/
def loopAccesses {α σ : Type} (valued fromThird : List Char)
    (body : String → Option String → α → σ → List Event × σ × Step α) :
    Nat → List String → α → σ → List Access
  | _, [], _, _ => []
  | i, [sw], _, _ => passAccesses valued fromThird i sw
  | i, sw :: val :: rest, v, s =>
    passAccesses valued fromThird i sw ++
      match body sw (some val) v s with
      | (_, s1, Step.next v1) => loopAccesses valued fromThird body (i + 2) rest v1 s1
      | _ => []

/-- The reads of `argv` in the option loop of a run of `createnp`. -/
def createnpAccesses {σ : Type} (L : Libc) (O : OS σ) (argv : List String) (s : σ) :
    List Access :=
  match argv with
  | _ :: target :: opts =>
    match charAt target 1 with
    | some c1 =>
      if c1 = '?' then [] else loopAccesses npValued [] (npOption L O) 2 opts NpVars.init s
    | none => []
  | _ => []

/-- The reads of `argv` in the option loop of a run of `createf`. -/
def createfAccesses {σ : Type} (L : Libc) (O : OS σ) (argv : List String) (s : σ) :
    List Access :=
  match argv with
  | _ :: target :: opts =>
    match charAt target 1 with
    | some c1 =>
      if c1 = '?' then [] else loopAccesses cfValued cfFromThird (cfOption L O) 2 opts CfVars.init s
    | none => []
  | _ => []

/-- The reads of `argv` in the option loop of a run of `callnp`. -/
def callnpAccesses {σ : Type} (L : Libc) (O : OS σ) (argv : List String) (s : σ) :
    List Access :=
  match argv with
  | _ :: target :: opts =>
    match charAt target 1 with
    | some c1 =>
      if c1 = '?' then [] else loopAccesses callValued [] (callOption L O) 2 opts CallVars.init s
    | none => []
  | _ => []

/-! ## The relay loop: lemmas -/

theorem relayLoop_zero {σ : Type} (O : OS σ) (i o : HANDLE) (n : Int) (s : σ) :
    relayLoop O i o n 0 s = ⟨[], s, false⟩ := rfl

theorem relayLoop_succ {σ : Type} (O : OS σ) (i o : HANDLE) (n : Int) (fuel : Nat) (s : σ) :
    relayLoop O i o n (fuel + 1) s =
      if (O.ReadFile s i (dword n)).1.1 > 0 then
        ⟨Event.ReadFile i (dword n) (O.ReadFile s i (dword n)).1.1 ((O.ReadFile s i (dword n)).1.2.take (dword n))
            :: Event.WriteFile o ((O.ReadFile s i (dword n)).1.2.take (dword n))
                (O.WriteFile (O.ReadFile s i (dword n)).2 o ((O.ReadFile s i (dword n)).1.2.take (dword n))).1.1
                (O.WriteFile (O.ReadFile s i (dword n)).2 o ((O.ReadFile s i (dword n)).1.2.take (dword n))).1.2
            :: (relayLoop O i o n fuel
                (O.WriteFile (O.ReadFile s i (dword n)).2 o ((O.ReadFile s i (dword n)).1.2.take (dword n))).2).trace,
          (relayLoop O i o n fuel
            (O.WriteFile (O.ReadFile s i (dword n)).2 o ((O.ReadFile s i (dword n)).1.2.take (dword n))).2).os,
          (relayLoop O i o n fuel
            (O.WriteFile (O.ReadFile s i (dword n)).2 o ((O.ReadFile s i (dword n)).1.2.take (dword n))).2).finished⟩
      else
        ⟨[Event.ReadFile i (dword n) (O.ReadFile s i (dword n)).1.1 ((O.ReadFile s i (dword n)).1.2.take (dword n))],
          (O.ReadFile s i (dword n)).2, true⟩ := rfl

/-- Claim C4. In every run of the relay loop, whatever the environment answers
and however long the loop runs: each read that satisfied the loop condition is
followed, before the next read, by exactly one write, which is offered exactly
the bytes of that read (so its requested length is the number of bytes read);
a read that fails the condition ends the loop. The buffers offered to the sink
are therefore the chunks read, one each and in order, so that no part of a
chunk is offered a second time after a short write, and what the sink
received is, chunk by chunk, the prefix of the length it accepted. -/
theorem relay_one_write_per_read {σ : Type} (O : OS σ) (inFile outFile : HANDLE)
    (bufferSize : Int) (fuel : Nat) (s : σ) :
    RelayShape inFile outFile bufferSize (relayLoop O inFile outFile bufferSize fuel s).trace ∧
    offered (relayLoop O inFile outFile bufferSize fuel s).trace =
      chunksRead (relayLoop O inFile outFile bufferSize fuel s).trace ∧
    delivered (relayLoop O inFile outFile bufferSize fuel s).trace =
      (List.zipWith (fun c k => c.take k)
        (chunksRead (relayLoop O inFile outFile bufferSize fuel s).trace)
        (accepted (relayLoop O inFile outFile bufferSize fuel s).trace)).flatten := by
  induction fuel generalizing s with
  | zero => simp [relayLoop_zero, RelayShape, offered, chunksRead, delivered, accepted]
  | succ fuel ih =>
    rw [relayLoop_succ]
    obtain ⟨h1, h2, h3⟩ := ih
      (O.WriteFile (O.ReadFile s inFile (dword bufferSize)).2 outFile
        ((O.ReadFile s inFile (dword bufferSize)).1.2.take (dword bufferSize))).2
    by_cases hret : (O.ReadFile s inFile (dword bufferSize)).1.1 > 0
    · simp only [hret, if_true]
      refine ⟨?_, ?_, ?_⟩
      · simp only [RelayShape]
        exact ⟨trivial, trivial, hret, trivial, trivial, h1⟩
      · simp only [offered, chunksRead, hret, if_true, h2]
      · simp only [delivered, chunksRead, accepted, hret, if_true, h3, List.zipWith_cons_cons,
          List.flatten_cons]
    · simp only [hret, if_false]
      refine ⟨?_, ?_, ?_⟩
      · simp only [RelayShape]
        exact ⟨trivial, trivial, hret⟩
      · simp [offered, chunksRead, hret]
      · simp [delivered, chunksRead, accepted, hret]

theorem chunkOS_read_nil (sink : List BYTE) (h : HANDLE) (n : Nat) :
    chunkOS.ReadFile ⟨[], sink⟩ h n = ((0, []), ⟨[], sink⟩) := rfl

theorem chunkOS_read_cons (c : List BYTE) (cs : List (List BYTE)) (sink : List BYTE)
    (h : HANDLE) (n : Nat) :
    chunkOS.ReadFile ⟨c :: cs, sink⟩ h n = ((1, c), ⟨cs, sink⟩) := rfl

theorem chunkOS_write (s : Channel) (h : HANDLE) (data : List BYTE) :
    chunkOS.WriteFile s h data = ((1, data.length), ⟨s.pending, s.sink ++ data⟩) := rfl

theorem fileOS_read (s : List BYTE) (h : HANDLE) (n : Nat) :
    fileOS.ReadFile s h n = ((1, s.take n), s.drop n) := rfl

theorem fileOS_write (s : List BYTE) (h : HANDLE) (data : List BYTE) :
    fileOS.WriteFile s h data = ((1, data.length), s) := rfl

theorem relay_chunkOS_aux (chunks : List (List BYTE)) (inFile outFile : HANDLE)
    (bufferSize : Int) (hsize : ∀ c ∈ chunks, c.length ≤ dword bufferSize) :
    ∀ (fuel : Nat) (sink : List BYTE), chunks.length < fuel →
      (relayLoop chunkOS inFile outFile bufferSize fuel ⟨chunks, sink⟩).finished = true ∧
      (relayLoop chunkOS inFile outFile bufferSize fuel ⟨chunks, sink⟩).os.pending = [] ∧
      (relayLoop chunkOS inFile outFile bufferSize fuel ⟨chunks, sink⟩).os.sink
        = sink ++ chunks.flatten ∧
      chunksRead (relayLoop chunkOS inFile outFile bufferSize fuel ⟨chunks, sink⟩).trace
        = chunks ∧
      delivered (relayLoop chunkOS inFile outFile bufferSize fuel ⟨chunks, sink⟩).trace
        = chunks.flatten ∧
      readCalls (relayLoop chunkOS inFile outFile bufferSize fuel ⟨chunks, sink⟩).trace
        = chunks.length + 1 := by
  induction chunks with
  | nil =>
    intro fuel sink hfuel
    cases fuel with
    | zero => simp at hfuel
    | succ fuel =>
      simp [relayLoop_succ, chunkOS_read_nil, chunksRead, delivered, readCalls]
  | cons c cs ih =>
    intro fuel sink hfuel
    cases fuel with
    | zero => simp at hfuel
    | succ fuel =>
      have hc : c.length ≤ dword bufferSize := hsize c (List.mem_cons_self c cs)
      have hcs : ∀ d ∈ cs, d.length ≤ dword bufferSize :=
        fun d hd => hsize d (List.mem_cons_of_mem c hd)
      have hlen : cs.length < fuel := by simpa using hfuel
      have htake : List.take (dword bufferSize) c = c := List.take_of_length_le hc
      obtain ⟨h1, h2, h3, h4, h5, h6⟩ := ih hcs fuel (sink ++ c) hlen
      simp [relayLoop_succ, chunkOS_read_cons, chunkOS_write, chunksRead, delivered,
        readCalls, htake, h1, h2, h3, h4, h5, h6, List.append_assoc]

/-- Claim C1. Let the source deliver the chunks `chunks`, each of at most
`bufferSize` bytes, one per read, and then report failure, and let the sink
accept every write in full. Then the relay loop, given fuel for one more
evaluation of its condition than there are chunks, ends; it has read exactly
the chunks, it has drained the source, and the bytes in the sink, in order,
are the concatenation of the chunks: as many bytes delivered as read, none
added, dropped or reordered. -/
theorem relay_delivers_exactly_what_was_read (chunks : List (List BYTE))
    (inFile outFile : HANDLE) (bufferSize : Int) (fuel : Nat)
    (hsize : ∀ c ∈ chunks, c.length ≤ dword bufferSize) (hfuel : chunks.length < fuel) :
    (relayLoop chunkOS inFile outFile bufferSize fuel ⟨chunks, []⟩).finished = true ∧
    (relayLoop chunkOS inFile outFile bufferSize fuel ⟨chunks, []⟩).os.pending = [] ∧
    (relayLoop chunkOS inFile outFile bufferSize fuel ⟨chunks, []⟩).os.sink
      = chunks.flatten ∧
    chunksRead (relayLoop chunkOS inFile outFile bufferSize fuel ⟨chunks, []⟩).trace
      = chunks ∧
    delivered (relayLoop chunkOS inFile outFile bufferSize fuel ⟨chunks, []⟩).trace
      = chunks.flatten ∧
    (delivered (relayLoop chunkOS inFile outFile bufferSize fuel ⟨chunks, []⟩).trace).length
      = (chunksRead
          (relayLoop chunkOS inFile outFile bufferSize fuel ⟨chunks, []⟩).trace).flatten.length := by
  obtain ⟨h1, h2, h3, h4, h5, _⟩ :=
    relay_chunkOS_aux chunks inFile outFile bufferSize hsize fuel [] hfuel
  refine ⟨h1, h2, ?_, h4, h5, ?_⟩
  · simpa using h3
  · rw [h4, h5]

/-- Witness for C1: two chunks of four and six bytes through a 65535-byte
buffer. -/
theorem relay_delivers_exactly_what_was_read_witness :
    (relayLoop chunkOS (HANDLE.valid 1) (HANDLE.valid 2) 65535 3
        ⟨[tenBytes.take 4, tenBytes.drop 4], []⟩).os.sink = tenBytes :=
  (relay_delivers_exactly_what_was_read [tenBytes.take 4, tenBytes.drop 4]
    (HANDLE.valid 1) (HANDLE.valid 2) 65535 3 (by decide) (by decide)).2.2.1

theorem relay_scriptOS_at_eof (inFile outFile : HANDLE) (bufferSize : Int) :
    ∀ (fuel : Nat) (s : Script), s.reads = [] → s.eof.1 > 0 →
      (relayLoop scriptOS inFile outFile bufferSize fuel s).finished = false := by
  intro fuel
  induction fuel with
  | zero => intro s _ _; rfl
  | succ fuel ih =>
    intro s hreads heof
    have hrd : scriptOS.ReadFile s inFile (dword bufferSize)
        = (s.eof, { s with reads := [] }) := by
      show (s.reads.headD s.eof, { s with reads := s.reads.tail }) = _
      rw [hreads]
      rfl
    rw [relayLoop_succ, hrd]
    simp only [heof, if_true]
    exact ih _ rfl heof

/-- Claim C2, evaluated on the code. Against a file source, whose reads always
succeed and return zero bytes once the file is exhausted, the relay loop never
ends: for every file content and every bound on the number of iterations the
loop is still running at the bound and has issued that many reads. So
`createnp \\.\pipe\x /I in.txt` with a ten-byte file never reaches the end of
`main`, whatever the bound. -/
theorem relay_never_ends_on_file_source :
    (∀ (content : List BYTE) (inFile outFile : HANDLE) (bufferSize : Int) (fuel : Nat),
      (relayLoop fileOS inFile outFile bufferSize fuel content).finished = false ∧
      readCalls (relayLoop fileOS inFile outFile bufferSize fuel content).trace = fuel) ∧
    (∀ fuel : Nat,
      (createnp clib scriptOS fuel ["createnp", "\\\\.\\pipe\\x", "/I", "in.txt"]
        fileInputScript).status = Status.outOfFuel) := by
  refine ⟨?_, ?_⟩
  · intro content inFile outFile bufferSize fuel
    induction fuel generalizing content with
    | zero => simp [relayLoop_zero, readCalls]
    | succ fuel ih =>
      obtain ⟨h1, h2⟩ := ih (content.drop (dword bufferSize))
      simp [relayLoop_succ, fileOS_read, fileOS_write, readCalls, h1, h2]
  · intro fuel
    cases fuel with
    | zero => decide
    | succ fuel =>
      have hrel := relay_scriptOS_at_eof (HANDLE.valid 3) (HANDLE.valid 7) 65535 fuel
        ({ eof := (1, []), full := (1, 0) } : Script) rfl (by decide)
      show (if (relayLoop scriptOS (HANDLE.valid 3) (HANDLE.valid 7) 65535 fuel
              ({ eof := (1, []), full := (1, 0) } : Script)).finished = false
          then (⟨_, _, Status.outOfFuel⟩ : Run Script) else ⟨_, _, Status.exit 1⟩).status
        = Status.outOfFuel
      rw [if_pos hrel]

/-! ## Runs that show where the code departs from the specification -/

/-- Claim C3, evaluated on the code. `createnp \\.\pipe\x /O out`, the first
`WriteFile` to the output file fails: the loop goes on to the next `ReadFile`,
and the run prints no error diagnostic, prints the success message and
returns 1. -/
theorem createnp_ignores_write_failure :
    (createnp clib scriptOS 5 ["createnp", "\\\\.\\pipe\\x", "/O", "out"]
        failingWriteScript).trace =
      [Event.CreateFile (some "out") GENERIC_WRITE 0 CREATE_ALWAYS FILE_ATTRIBUTE_NORMAL
          (HANDLE.valid 3),
        Event.CreateNamedPipe "\\\\.\\pipe\\x" 3 0 65535 (HANDLE.valid 7),
        Event.ConnectNamedPipe (HANDLE.valid 7) 1,
        Event.malloc 65535 true,
        Event.ReadFile (HANDLE.valid 7) 65535 1 [1],
        Event.WriteFile (HANDLE.valid 3) [1] 0 0,
        Event.ReadFile (HANDLE.valid 7) 65535 1 [2],
        Event.WriteFile (HANDLE.valid 3) [2] 1 1,
        Event.ReadFile (HANDLE.valid 7) 65535 0 [],
        Event.printf Diag.success,
        Event.CloseHandle (HANDLE.valid 7),
        Event.CloseHandle (HANDLE.valid 3),
        Event.DisconnectNamedPipe (HANDLE.valid 7),
        Event.CloseHandle (HANDLE.valid 7)] ∧
    (createnp clib scriptOS 5 ["createnp", "\\\\.\\pipe\\x", "/O", "out"]
        failingWriteScript).status = Status.exit 1 ∧
    printedError (createnp clib scriptOS 5 ["createnp", "\\\\.\\pipe\\x", "/O", "out"]
        failingWriteScript).trace = false := by
  decide

/-- Claim C5, evaluated on the code. With the target `x`, which has no
backslash in its first two characters, each of the three programs prints the
diagnostic `Error: must specify target`, carries on, and returns 1. -/
theorem error_printed_and_exit_status_one :
    ((callnp clib scriptOS ["callnp", "x"] clientScript).status = Status.exit 1 ∧
      (callnp clib scriptOS ["callnp", "x"] clientScript).trace.head?
        = some (Event.printf Diag.mustSpecifyTarget) ∧
      printedError (callnp clib scriptOS ["callnp", "x"] clientScript).trace = true) ∧
    ((createnp clib scriptOS 5 ["createnp", "x"] serverScript).status = Status.exit 1 ∧
      (createnp clib scriptOS 5 ["createnp", "x"] serverScript).trace.head?
        = some (Event.printf Diag.mustSpecifyTarget) ∧
      printedError (createnp clib scriptOS 5 ["createnp", "x"] serverScript).trace = true) ∧
    ((createf clib scriptOS 5 ["createf", "x"] fileScript).status = Status.exit 1 ∧
      (createf clib scriptOS 5 ["createf", "x"] fileScript).trace.head?
        = some (Event.printf Diag.mustSpecifyTarget) ∧
      printedError (createf clib scriptOS 5 ["createf", "x"] fileScript).trace = true) := by
  decide

/-- Claim C6, evaluated on the code. `createnp \\.\pipe\x /B zz`: `atoi`
returns 0 for `zz` and leaves `errno` alone, so the value is not rejected; the
program calls `CreateNamedPipe` with buffer size 0 and ends with the success
message and status 1. The same happens with `/M zz`, converted by `strtoul`,
and `createf` opens its target after `/S zz`. -/
theorem malformed_number_reaches_the_system :
    ((createnp clib scriptOS 5 ["createnp", "\\\\.\\pipe\\x", "/B", "zz"] serverScript).trace =
      [Event.CreateNamedPipe "\\\\.\\pipe\\x" 3 0 0 (HANDLE.valid 7),
        Event.ConnectNamedPipe (HANDLE.valid 7) 1,
        Event.malloc 0 true,
        Event.ReadFile (HANDLE.valid 7) 0 0 [],
        Event.printf Diag.success,
        Event.CloseHandle (HANDLE.valid 7),
        Event.CloseHandle (HANDLE.valid 7),
        Event.DisconnectNamedPipe (HANDLE.valid 7),
        Event.CloseHandle (HANDLE.valid 7)] ∧
      (createnp clib scriptOS 5 ["createnp", "\\\\.\\pipe\\x", "/B", "zz"] serverScript).status
        = Status.exit 1) ∧
    ((createnp clib scriptOS 5 ["createnp", "\\\\.\\pipe\\x", "/M", "zz"] serverScript).trace.head?
        = some (Event.CreateNamedPipe "\\\\.\\pipe\\x" 0 0 65535 (HANDLE.valid 7)) ∧
      (createnp clib scriptOS 5 ["createnp", "\\\\.\\pipe\\x", "/M", "zz"] serverScript).status
        = Status.exit 1) ∧
    ((createf clib scriptOS 5 ["createf", "\\\\s\\d\\f", "/S", "zz"] fileScript).trace =
      [Event.malloc 65535 true,
        Event.CreateFile (some "\\\\s\\d\\f") GENERIC_READ 0 CREATE_ALWAYS FILE_ATTRIBUTE_NORMAL
          (HANDLE.valid 3),
        Event.printf Diag.success,
        Event.CloseHandle HANDLE.NULL,
        Event.CloseHandle HANDLE.NULL,
        Event.CloseHandle (HANDLE.valid 3)] ∧
      (createf clib scriptOS 5 ["createf", "\\\\s\\d\\f", "/S", "zz"] fileScript).status
        = Status.exit 1) := by
  decide

/-- Claim C8, evaluated on the code. `createnp \\.\pipe\x` without `/I` and
`/O`: `inFile` and `outFile` both stand for the pipe handle, so after the
relay the pipe handle is closed twice, then disconnected, then closed a third
time. -/
theorem createnp_closes_pipe_before_disconnect :
    (createnp clib scriptOS 5 ["createnp", "\\\\.\\pipe\\x"] serverScript).trace =
      [Event.CreateNamedPipe "\\\\.\\pipe\\x" 3 0 65535 (HANDLE.valid 7),
        Event.ConnectNamedPipe (HANDLE.valid 7) 1,
        Event.malloc 65535 true,
        Event.ReadFile (HANDLE.valid 7) 65535 0 [],
        Event.printf Diag.success,
        Event.CloseHandle (HANDLE.valid 7),
        Event.CloseHandle (HANDLE.valid 7),
        Event.DisconnectNamedPipe (HANDLE.valid 7),
        Event.CloseHandle (HANDLE.valid 7)] ∧
    (createnp clib scriptOS 5 ["createnp", "\\\\.\\pipe\\x"] serverScript).status
      = Status.exit 1 := by
  decide

/-! ## The option loops: lemmas -/

theorem pairs_induction {α : Type} {P : List α → Prop} (h0 : P []) (h1 : ∀ a, P [a])
    (h2 : ∀ a b l, P l → P (a :: b :: l)) : ∀ l, P l := by
  have key : ∀ l, P l ∧ ∀ a, P (a :: l) := by
    intro l
    induction l with
    | nil => exact ⟨h0, h1⟩
    | cons b l ih => exact ⟨ih.2 b, fun a => h2 a b l ih.1⟩
  exact fun l => (key l).1

theorem switchCheck_isOptionEvent (sw : String) :
    ∀ e ∈ switchCheck sw, e.isOptionEvent = true := by
  intro e he
  unfold switchCheck at he
  split at he <;> simp at he
  subst he
  rfl

theorem targetCheck_isOptionEvent (target : String) (c1 : Char) :
    ∀ e ∈ targetCheck target c1, e.isOptionEvent = true := by
  intro e he
  unfold targetCheck at he
  split at he <;> simp at he
  subst he
  rfl

/-! ## `callnp`: lemmas -/

theorem callOption_spec {σ : Type} (L : Libc) (O : OS σ) (sw : String) (val : Option String)
    (v : CallVars) (s : σ) :
    (∀ e ∈ (callOption L O sw val v s).1, e.isOptionEvent = true) ∧
    ∀ v1, (callOption L O sw val v s).2.2 = Step.next v1 →
      (charAt sw 1 ≠ some 'I' → v1.inFile = v.inFile) ∧
      (charAt sw 1 ≠ some 'B' → v1.bufferSize = v.bufferSize) ∧
      (charAt sw 1 = some 'B' → ∃ str, val = some str ∧ v1.bufferSize = (L.atoi str).1) := by
  have hpre := switchCheck_isOptionEvent sw
  unfold callOption
  cases hc : charAt sw 1 with
  | none => simpa using hpre
  | some c =>
    simp only
    by_cases hI : c = 'I'
    · subst hI
      simp only [if_true]
      split
      · refine ⟨?_, by simp⟩
        intro e he
        simp only [List.mem_append, List.mem_cons, List.mem_singleton, List.not_mem_nil,
          or_false] at he
        rcases he with he | he | he
        · exact hpre e he
        · subst he; rfl
        · subst he; rfl
      · refine ⟨?_, ?_⟩
        · intro e he
          simp only [List.mem_append, List.mem_singleton] at he
          rcases he with he | he
          · exact hpre e he
          · subst he; rfl
        · intro v1 hv1
          simp only [Step.next.injEq] at hv1
          subst hv1
          simp
    · simp only [hI, if_false]
      by_cases hO : c = 'O'
      · subst hO
        simp only [if_true]
        split
        · refine ⟨?_, by simp⟩
          intro e he
          simp only [List.mem_append, List.mem_cons, List.mem_singleton, List.not_mem_nil,
            or_false] at he
          rcases he with he | he | he
          · exact hpre e he
          · subst he; rfl
          · subst he; rfl
        · refine ⟨?_, ?_⟩
          · intro e he
            simp only [List.mem_append, List.mem_singleton] at he
            rcases he with he | he
            · exact hpre e he
            · subst he; rfl
          · intro v1 hv1
            simp only [Step.next.injEq] at hv1
            subst hv1
            simp
      · simp only [hO, if_false]
        by_cases hB : c = 'B'
        · subst hB
          simp only [if_true]
          cases val with
          | none => simpa using hpre
          | some str =>
            simp only [callAfterSwitch]
            split
            · refine ⟨?_, by simp⟩
              intro e he
              simp only [List.mem_append, List.mem_singleton] at he
              rcases he with he | he
              · exact hpre e he
              · subst he; rfl
            · refine ⟨hpre, ?_⟩
              intro v1 hv1
              simp only [Step.next.injEq] at hv1
              subst hv1
              simp
        · simp only [hB, if_false]
          refine ⟨?_, by simp⟩
          intro e he
          simp only [List.mem_append, List.mem_singleton] at he
          rcases he with he | he
          · exact hpre e he
          · subst he; rfl

theorem callOptions_spec {σ : Type} (L : Libc) (O : OS σ) :
    ∀ (opts : List String) (v : CallVars) (s : σ),
      (∀ e ∈ (callOptions L O opts v s).1, e.isOptionEvent = true) ∧
      ∀ v1, (callOptions L O opts v s).2.2 = Step.next v1 →
        v1.bufferSize = requestedBufferSize L opts v.bufferSize ∧
        (some 'I' ∉ switchLetters opts → v1.inFile = v.inFile) := by
  intro opts
  induction opts using pairs_induction with
  | h0 =>
    intro v s
    refine ⟨by simp [callOptions], ?_⟩
    intro v1 hv1
    simp only [callOptions, Step.next.injEq] at hv1
    subst hv1
    simp [requestedBufferSize]
  | h1 sw =>
    intro v s
    obtain ⟨hev, hnext⟩ := callOption_spec L O sw none v s
    refine ⟨by simpa [callOptions] using hev, ?_⟩
    intro v1 hv1
    obtain ⟨hI, hB, hB'⟩ := hnext v1 (by simpa [callOptions] using hv1)
    refine ⟨?_, ?_⟩
    · simp only [requestedBufferSize]
      by_cases hc : charAt sw 1 = some 'B'
      · obtain ⟨str, hstr, _⟩ := hB' hc
        simp at hstr
      · exact hB hc
    · intro hno
      apply hI
      intro hc
      exact hno (by simp [switchLetters, hc])
  | h2 sw val rest ih =>
    intro v s
    obtain ⟨hev, hnext⟩ := callOption_spec L O sw (some val) v s
    rcases hstep : callOption L O sw (some val) v s with ⟨evs, s1, st⟩
    rw [hstep] at hev hnext
    cases st with
    | next v1 =>
      obtain ⟨hev', hnext'⟩ := ih v1 s1
      obtain ⟨hI, hB, hB'⟩ := hnext v1 rfl
      simp only [callOptions, hstep]
      refine ⟨?_, ?_⟩
      · intro e he
        simp only [List.mem_append] at he
        rcases he with he | he
        · exact hev e he
        · exact hev' e he
      · intro v2 hv2
        obtain ⟨hbs, hin⟩ := hnext' v2 hv2
        refine ⟨?_, ?_⟩
        · rw [hbs]
          simp only [requestedBufferSize]
          by_cases hc : charAt sw 1 = some 'B'
          · obtain ⟨str, hstr, hval⟩ := hB' hc
            simp only [Option.some.injEq] at hstr
            subst hstr
            simp [hc, hval]
          · simp [hc, hB hc]
        · intro hno
          simp only [switchLetters, List.mem_cons, not_or] at hno
          rw [hin hno.2]
          exact hI (fun hc => hno.1 hc.symm)
    | ret code =>
      simp only [callOptions, hstep]
      exact ⟨hev, by simp⟩
    | undefined =>
      simp only [callOptions, hstep]
      exact ⟨hev, by simp⟩

theorem requestedBufferSize_default (L : Libc) :
    ∀ (opts : List String) (current : Int), some 'B' ∉ switchLetters opts →
      requestedBufferSize L opts current = current := by
  intro opts
  induction opts using pairs_induction with
  | h0 => intro current _; rfl
  | h1 sw => intro current _; rfl
  | h2 sw val rest ih =>
    intro current hno
    simp only [switchLetters, List.mem_cons, not_or] at hno
    simp only [requestedBufferSize]
    rw [ih _ hno.2]
    have : ¬ charAt sw 1 = some 'B' := fun hc => hno.1 hc.symm
    simp [this]

theorem callTransact_trace {σ : Type} (O : OS σ) (target : String) (v : CallVars)
    (request : List BYTE) (s : σ) :
    (∀ name req cap ret reply,
      Event.CallNamedPipe name req cap ret reply ∈ (callTransact O target v request s).trace →
        name = target ∧ req = request ∧ cap = dword v.bufferSize) ∧
    (∃ ret reply, Event.CallNamedPipe target request (dword v.bufferSize) ret reply
      ∈ (callTransact O target v request s).trace) ∧
    (∀ h size ret data,
      Event.ReadFile h size ret data ∉ (callTransact O target v request s).trace) ∧
    (∀ name ret, Event.WaitNamedPipe name ret ∉ (callTransact O target v request s).trace) := by
  unfold callTransact
  simp only
  split_ifs <;> simp <;> intros <;> simp_all

theorem callWait_trace {σ : Type} (O : OS σ) (target : String) (v : CallVars)
    (request : List BYTE) (s : σ) :
    (∀ name req cap ret reply,
      Event.CallNamedPipe name req cap ret reply ∈ (callWait O target v request s).trace →
        name = target ∧ req = request ∧ cap = dword v.bufferSize) ∧
    (∀ name wret, Event.WaitNamedPipe name wret ∈ (callWait O target v request s).trace →
      wret ≠ 0 → ∃ ret reply, Event.CallNamedPipe name request (dword v.bufferSize) ret reply
        ∈ (callWait O target v request s).trace) ∧
    (∀ h size ret data,
      Event.ReadFile h size ret data ∉ (callWait O target v request s).trace) := by
  obtain ⟨h1, ⟨ret, reply, h2⟩, h3, h4⟩ :=
    callTransact_trace O target v request (O.WaitNamedPipe s target).2
  unfold callWait
  simp only
  split_ifs with hw
  · refine ⟨by simp, ?_, by simp⟩
    intro name wret hmem hne
    simp only [List.mem_cons, Event.WaitNamedPipe.injEq, List.mem_singleton, reduceCtorEq,
      or_false, List.not_mem_nil] at hmem
    exact absurd (hmem.2 ▸ hw) hne
  · refine ⟨?_, ?_, ?_⟩
    · intro name req cap ret' reply' hmem
      simp only [List.mem_cons, reduceCtorEq, false_or] at hmem
      exact h1 name req cap ret' reply' hmem
    · intro name wret hmem _
      simp only [List.mem_cons, Event.WaitNamedPipe.injEq] at hmem
      rcases hmem with hmem | hmem
      · rw [hmem.1]
        exact ⟨ret, reply, List.mem_cons_of_mem _ h2⟩
      · exact absurd hmem (h4 name wret)
    · intro h size ret' data hmem
      simp only [List.mem_cons, reduceCtorEq, false_or] at hmem
      exact h3 h size ret' data hmem

theorem callBody_spec {σ : Type} (O : OS σ) (target : String) (v : CallVars) (s : σ) :
    (∀ name req cap ret reply,
      Event.CallNamedPipe name req cap ret reply ∈ (callBody O target v s).trace →
        cap = dword v.bufferSize ∧ (v.inFile = HANDLE.NULL → req = []) ∧
        ∀ h size rret data, Event.ReadFile h size rret data ∈ (callBody O target v s).trace →
          req = data ∧ data.length ≤ cap) ∧
    (∀ name wret, Event.WaitNamedPipe name wret ∈ (callBody O target v s).trace → wret ≠ 0 →
      ∃ req ret reply,
        Event.CallNamedPipe name req (dword v.bufferSize) ret reply
          ∈ (callBody O target v s).trace) := by
  unfold callBody
  simp only
  split_ifs with hm hin hrd
  · simp
  · simp
  · obtain ⟨h1, h2, h3⟩ := callWait_trace O target v
      ((O.ReadFile (O.malloc (O.malloc s v.bufferSize).2 v.bufferSize).2 v.inFile
        (dword v.bufferSize)).1.2.take (dword v.bufferSize))
      (O.ReadFile (O.malloc (O.malloc s v.bufferSize).2 v.bufferSize).2 v.inFile
        (dword v.bufferSize)).2
    refine ⟨?_, ?_⟩
    · intro name req cap ret reply hmem
      simp only [List.mem_append, List.mem_cons, reduceCtorEq, List.not_mem_nil, or_false,
        false_or] at hmem
      obtain ⟨_, hreq, hcap⟩ := h1 name req cap ret reply hmem
      refine ⟨hcap, fun hnull => absurd hnull hin, ?_⟩
      intro h size rret data hmem'
      simp only [List.mem_append, List.mem_cons, reduceCtorEq, List.not_mem_nil, or_false,
        false_or, Event.ReadFile.injEq] at hmem'
      rcases hmem' with hmem' | hmem'
      · obtain ⟨_, _, _, hdata⟩ := hmem'
        subst hdata hreq hcap
        exact ⟨rfl, by simp [List.length_take]⟩
      · exact absurd hmem' (h3 h size rret data)
    · intro name wret hmem hne
      simp only [List.mem_append, List.mem_cons, reduceCtorEq, List.not_mem_nil, or_false,
        false_or] at hmem
      obtain ⟨ret, reply, hcall⟩ := h2 name wret hmem hne
      exact ⟨_, ret, reply, List.mem_append_right _ hcall⟩
  · obtain ⟨h1, h2, h3⟩ := callWait_trace O target v []
      (O.malloc (O.malloc s v.bufferSize).2 v.bufferSize).2
    refine ⟨?_, ?_⟩
    · intro name req cap ret reply hmem
      simp only [List.mem_append, List.mem_cons, reduceCtorEq, List.not_mem_nil, or_false,
        false_or] at hmem
      obtain ⟨_, hreq, hcap⟩ := h1 name req cap ret reply hmem
      refine ⟨hcap, fun _ => hreq, ?_⟩
      intro h size rret data hmem'
      simp only [List.mem_append, List.mem_cons, reduceCtorEq, List.not_mem_nil, or_false,
        false_or] at hmem'
      exact absurd hmem' (h3 h size rret data)
    · intro name wret hmem hne
      simp only [List.mem_append, List.mem_cons, reduceCtorEq, List.not_mem_nil, or_false,
        false_or] at hmem
      obtain ⟨ret, reply, hcall⟩ := h2 name wret hmem hne
      exact ⟨_, ret, reply, List.mem_append_right _ hcall⟩

theorem mem_after_option_events {e : Event} {a b : List Event}
    (ha : ∀ x ∈ a, x.isOptionEvent = true) (he : e.isOptionEvent = false)
    (hmem : e ∈ a ++ b) : e ∈ b := by
  rcases List.mem_append.mp hmem with h | h
  · rw [ha e h] at he
    exact absurd he (by simp)
  · exact h

theorem not_mem_option_events {e : Event} {a : List Event}
    (ha : ∀ x ∈ a, x.isOptionEvent = true) (he : e.isOptionEvent = false) : e ∉ a := by
  intro h
  rw [ha e h] at he
  exact absurd he (by simp)

/-- In every run of `callnp`, whatever the arguments, the C library and the
operating system do: every `CallNamedPipe` the run issues has as response
capacity the buffer size that the arguments in switch position with second
character `B` set (65535 when there is none); when no argument in switch
position has `I` as its second character its request is empty; when the run
read the input file, its request is exactly the bytes that read stored, which
are at most as many as the buffer size. And whenever `WaitNamedPipe` succeeded,
the run did issue the transaction, on the same pipe name. The switch character
`argv[i][0]` plays no part in any of this. -/
theorem callnp_request_and_capacity {σ : Type} (L : Libc) (O : OS σ) (argv : List String)
    (s : σ) :
    (∀ name req cap ret reply,
      Event.CallNamedPipe name req cap ret reply ∈ (callnp L O argv s).trace →
        cap = dword (requestedBufferSize L (argv.drop 2) 65535) ∧
        (some 'B' ∉ switchLetters (argv.drop 2) → cap = 65535) ∧
        (some 'I' ∉ switchLetters (argv.drop 2) → req = []) ∧
        ∀ h size rret data, Event.ReadFile h size rret data ∈ (callnp L O argv s).trace →
          req = data ∧ data.length ≤ cap) ∧
    (∀ name wret, Event.WaitNamedPipe name wret ∈ (callnp L O argv s).trace → wret ≠ 0 →
      ∃ req ret reply,
        Event.CallNamedPipe name req (dword (requestedBufferSize L (argv.drop 2) 65535))
          ret reply ∈ (callnp L O argv s).trace) := by
  match argv with
  | [] => simp [callnp]
  | [_] => simp [callnp]
  | _ :: target :: opts =>
    simp only [callnp, List.drop_succ_cons, List.drop_zero]
    cases hc1 : charAt target 1 with
    | none => simp
    | some c1 =>
      simp only
      by_cases hq : c1 = '?'
      · simp [hq]
      · simp only [hq, if_false]
        obtain ⟨hev, hnext⟩ := callOptions_spec L O opts CallVars.init s
        rcases hopt : callOptions L O opts CallVars.init s with ⟨evs, s1, st⟩
        rw [hopt] at hev hnext
        have hpre : ∀ x ∈ targetCheck target c1 ++ evs, x.isOptionEvent = true := by
          intro x hx
          rcases List.mem_append.mp hx with h | h
          · exact targetCheck_isOptionEvent target c1 x h
          · exact hev x h
        cases st with
        | ret code =>
          simp only
          refine ⟨?_, ?_⟩
          · intro name req cap ret reply hmem
            exact absurd hmem (not_mem_option_events hpre rfl)
          · intro name wret hmem
            exact absurd hmem (not_mem_option_events hpre rfl)
        | undefined =>
          simp only
          refine ⟨?_, ?_⟩
          · intro name req cap ret reply hmem
            exact absurd hmem (not_mem_option_events hpre rfl)
          · intro name wret hmem
            exact absurd hmem (not_mem_option_events hpre rfl)
        | next v =>
          simp only
          obtain ⟨hbs, hin⟩ := hnext v rfl
          obtain ⟨hcall, hwait⟩ := callBody_spec O target v s1
          have hbs' : v.bufferSize = requestedBufferSize L opts 65535 := hbs
          refine ⟨?_, ?_⟩
          · intro name req cap ret reply hmem
            obtain ⟨hcap, hreq, hread⟩ :=
              hcall name req cap ret reply (mem_after_option_events hpre rfl hmem)
            refine ⟨by rw [hcap, hbs'], ?_, ?_, ?_⟩
            · intro hB
              rw [hcap, hbs', requestedBufferSize_default L opts 65535 hB]
              rfl
            · intro hI
              exact hreq (hin hI)
            · intro h size rret data hmem'
              exact hread h size rret data (mem_after_option_events hpre rfl hmem')
          · intro name wret hmem hne
            obtain ⟨req, ret, reply, hc⟩ :=
              hwait name wret (mem_after_option_events hpre rfl hmem) hne
            rw [hbs'] at hc
            exact ⟨req, ret, reply, List.mem_append_right _ hc⟩

/-- Instances of `callnp_request_and_capacity`: a run without an input file in
which the wait succeeds issues the transaction with capacity 65535; in a run
with `/I` the request is the four bytes the read of the input file stored. -/
theorem callnp_request_and_capacity_witness :
    (∃ req ret reply,
      Event.CallNamedPipe "\\\\srv\\pipe\\x" req
        (dword (requestedBufferSize clib (["callnp", "\\\\srv\\pipe\\x"].drop 2) 65535))
        ret reply ∈ (callnp clib scriptOS ["callnp", "\\\\srv\\pipe\\x"] clientScript).trace) ∧
    (([80, 73, 78, 71] : List BYTE) = [80, 73, 78, 71] ∧
      ([80, 73, 78, 71] : List BYTE).length ≤ 65535) :=
  ⟨(callnp_request_and_capacity clib scriptOS ["callnp", "\\\\srv\\pipe\\x"] clientScript).2
      "\\\\srv\\pipe\\x" 1 (by decide) (by decide),
    ((callnp_request_and_capacity clib scriptOS
        ["callnp", "\\\\srv\\pipe\\x", "/I", "ping.bin"] clientFileScript).1
      "\\\\srv\\pipe\\x" [80, 73, 78, 71] 65535 1 [80, 79, 78, 71] (by decide)).2.2.2
      (HANDLE.valid 3) 65535 1 [80, 73, 78, 71] (by decide)⟩

/-- Claim C7, evaluated on the code. `callnp \\srv\pipe\x -I req` gives no
`/I`: the program prints `Error: invalid switch`, does not return, switches on
the second character alone, opens `req`, reads its four bytes and sends them
as the request, where the claim has a request of length 0.
`callnp \\srv\pipe\x -B 16` gives no `/B`: after the same diagnostic the
buffer size is 16, and the transaction is issued with capacity 16, where the
claim has 65535. Both runs print the success message and return 1. -/
theorem callnp_invalid_switch_taken_as_option :
    ((callnp clib scriptOS ["callnp", "\\\\srv\\pipe\\x", "-I", "req"] clientFileScript).trace =
      [Event.printf Diag.invalidSwitch,
        Event.CreateFile (some "req") GENERIC_READ FILE_SHARE_READ OPEN_EXISTING
          FILE_ATTRIBUTE_NORMAL (HANDLE.valid 3),
        Event.malloc 65535 true,
        Event.malloc 65535 true,
        Event.ReadFile (HANDLE.valid 3) 65535 1 [80, 73, 78, 71],
        Event.WaitNamedPipe "\\\\srv\\pipe\\x" 1,
        Event.CallNamedPipe "\\\\srv\\pipe\\x" [80, 73, 78, 71] 65535 1 [80, 79, 78, 71],
        Event.printf Diag.success] ∧
      (callnp clib scriptOS ["callnp", "\\\\srv\\pipe\\x", "-I", "req"] clientFileScript).status
        = Status.exit 1) ∧
    ((callnp clib scriptOS ["callnp", "\\\\srv\\pipe\\x", "-B", "16"] clientScript).trace =
      [Event.printf Diag.invalidSwitch,
        Event.malloc 16 true,
        Event.malloc 16 true,
        Event.WaitNamedPipe "\\\\srv\\pipe\\x" 1,
        Event.CallNamedPipe "\\\\srv\\pipe\\x" [] 16 1 [80, 79, 78, 71],
        Event.printf Diag.success] ∧
      (callnp clib scriptOS ["callnp", "\\\\srv\\pipe\\x", "-B", "16"] clientScript).status
        = Status.exit 1) := by
  decide

/-! ## Open handles: lemmas -/

theorem openAfter_append (a b : List Event) :
    ∀ held, openAfter held (a ++ b) = openAfter (openAfter held a) b := by
  induction a with
  | nil => intro held; rfl
  | cons e a ih =>
    intro held
    cases e with
    | CreateFile name x1 x2 x3 x4 result =>
      cases result <;> simp [openAfter, ih]
    | CreateNamedPipe name x1 x2 x3 result =>
      cases result <;> simp [openAfter, ih]
    | _ => simp [openAfter, ih]

theorem openAfter_of_no_handle_events (evs : List Event)
    (h : ∀ e ∈ evs, (∃ d, e = Event.printf d) ∨ (∃ a b c d, e = Event.ReadFile a b c d) ∨
      (∃ a b c d, e = Event.WriteFile a b c d)) :
    ∀ held, openAfter held evs = held := by
  induction evs with
  | nil => intro held; rfl
  | cons e evs ih =>
    intro held
    have ih' := ih (fun x hx => h x (List.mem_cons_of_mem e hx)) held
    rcases h e (List.mem_cons_self e evs) with ⟨d, rfl⟩ | ⟨a, b, c, d, rfl⟩ | ⟨a, b, c, d, rfl⟩ <;>
      simpa [openAfter] using ih'

theorem relayLoop_events {σ : Type} (O : OS σ) (i o : HANDLE) (n : Int) :
    ∀ (fuel : Nat) (s : σ), ∀ e ∈ (relayLoop O i o n fuel s).trace,
      (∃ d, e = Event.printf d) ∨ (∃ a b c d, e = Event.ReadFile a b c d) ∨
        (∃ a b c d, e = Event.WriteFile a b c d) := by
  intro fuel
  induction fuel with
  | zero => intro s e he; simp [relayLoop_zero] at he
  | succ fuel ih =>
    intro s e he
    rw [relayLoop_succ] at he
    split at he
    · simp only [List.mem_cons] at he
      rcases he with he | he | he
      · exact Or.inr (Or.inl ⟨_, _, _, _, he⟩)
      · exact Or.inr (Or.inr ⟨_, _, _, _, he⟩)
      · exact ih _ e he
    · simp only [List.mem_singleton] at he
      exact Or.inr (Or.inl ⟨_, _, _, _, he⟩)

theorem openAfter_relayLoop {σ : Type} (O : OS σ) (i o : HANDLE) (n : Int) (fuel : Nat)
    (s : σ) (held : List HANDLE) :
    openAfter held (relayLoop O i o n fuel s).trace = held :=
  openAfter_of_no_handle_events _ (relayLoop_events O i o n fuel s) held

theorem openAfter_switchCheck (sw : String) (held : List HANDLE) :
    openAfter held (switchCheck sw) = held := by
  unfold switchCheck
  split <;> simp [openAfter]

theorem openAfter_targetCheck (target : String) (c1 : Char) (held : List HANDLE) :
    openAfter held (targetCheck target c1) = held := by
  unfold targetCheck
  split <;> simp [openAfter]

theorem filter_ne_eq_nil_of_heldBy {a b : HANDLE} {held : List HANDLE}
    (h : HeldBy a b held) :
    (held.filter (fun x => decide (x ≠ a))).filter (fun x => decide (x ≠ b)) = [] := by
  rw [List.filter_filter, List.filter_eq_nil_iff]
  intro x hx
  rcases (h x hx).2 with h1 | h1 <;> simp [h1]

theorem heldBy_nil (a b : HANDLE) : HeldBy a b [] := by
  intro x hx
  simp at hx

/-! ## `createnp`: every returning run closes what it opened -/

theorem ofResult_cases (r : Option Nat) :
    HANDLE.ofResult r = HANDLE.INVALID_HANDLE_VALUE ∨ ∃ n, HANDLE.ofResult r = HANDLE.valid n := by
  cases r with
  | none => exact Or.inl rfl
  | some n => exact Or.inr ⟨n, rfl⟩

theorem openAfter_close_both {a b : HANDLE} {held : List HANDLE} (h : HeldBy a b held)
    (d : Diag) :
    openAfter held [Event.printf d, Event.CloseHandle a, Event.CloseHandle b] = [] := by
  simp only [openAfter]
  exact filter_ne_eq_nil_of_heldBy h

theorem npAfterSwitch_handles {σ : Type} (O : OS σ) (sw : String) (errno : Nat)
    (v : NpVars) (s : σ) (held : List HANDLE)
    (hheld : HeldBy v.inFile v.outFile held) :
    (∀ c, (npAfterSwitch O (switchCheck sw) errno v s).2.2 = Step.ret c →
      openAfter held (npAfterSwitch O (switchCheck sw) errno v s).1 = []) ∧
    (∀ v1, (npAfterSwitch O (switchCheck sw) errno v s).2.2 = Step.next v1 →
      v1 = v ∧ openAfter held (npAfterSwitch O (switchCheck sw) errno v s).1 = held) := by
  unfold npAfterSwitch
  split
  · refine ⟨?_, by simp⟩
    intro c _
    simp only [openAfter_append, openAfter_switchCheck]
    exact openAfter_close_both hheld _
  · refine ⟨by simp, ?_⟩
    intro v1 hv1
    simp only [Step.next.injEq] at hv1
    exact ⟨hv1.symm, openAfter_switchCheck sw held⟩

theorem npOption_handles {σ : Type} (L : Libc) (O : OS σ) (sw : String) (val : Option String)
    (v : NpVars) (s : σ) (held : List HANDLE)
    (hheld : HeldBy v.inFile v.outFile held)
    (hI : charAt sw 1 = some 'I' → v.inFile = HANDLE.NULL)
    (hO : charAt sw 1 = some 'O' → v.outFile = HANDLE.NULL) :
    (∀ c, (npOption L O sw val v s).2.2 = Step.ret c →
      openAfter held (npOption L O sw val v s).1 = []) ∧
    (∀ v1, (npOption L O sw val v s).2.2 = Step.next v1 →
      HeldBy v1.inFile v1.outFile (openAfter held (npOption L O sw val v s).1) ∧
      (charAt sw 1 ≠ some 'I' → v1.inFile = v.inFile) ∧
      (charAt sw 1 ≠ some 'O' → v1.outFile = v.outFile)) := by
  unfold npOption
  cases hc : charAt sw 1 with
  | none => simp
  | some c =>
    simp only
    by_cases hcI : c = 'I'
    · subst hcI
      have hin : v.inFile = HANDLE.NULL := hI hc
      simp only [if_true]
      rcases ofResult_cases (O.CreateFile s val GENERIC_READ FILE_SHARE_READ OPEN_EXISTING
        FILE_ATTRIBUTE_NORMAL).1 with hr | ⟨n, hr⟩
      · simp only [hr, if_true]
        refine ⟨?_, by simp⟩
        intro c _
        simp only [openAfter_append, openAfter_switchCheck, openAfter]
        rw [List.filter_eq_nil_iff]
        intro x hx
        rcases hheld x hx with ⟨hne, h1 | h1⟩
        · exact absurd (h1.trans hin) hne
        · simp [h1]
      · simp only [hr, reduceCtorEq, if_false]
        refine ⟨by simp, ?_⟩
        intro v1 hv1
        simp only [Step.next.injEq] at hv1
        subst hv1
        refine ⟨?_, by simp, by simp⟩
        simp only [openAfter_append, openAfter_switchCheck, openAfter]
        intro x hx
        simp only [List.mem_cons] at hx
        rcases hx with hx | hx
        · subst hx
          exact ⟨by simp, Or.inl rfl⟩
        · rcases hheld x hx with ⟨hne, h1 | h1⟩
          · exact absurd (h1.trans hin) hne
          · exact ⟨hne, Or.inr h1⟩
    · simp only [hcI, if_false]
      by_cases hcO : c = 'O'
      · subst hcO
        have hout : v.outFile = HANDLE.NULL := hO hc
        simp only [if_true]
        rcases ofResult_cases (O.CreateFile s val GENERIC_WRITE 0 CREATE_ALWAYS
          FILE_ATTRIBUTE_NORMAL).1 with hr | ⟨n, hr⟩
        · simp only [hr, if_true]
          refine ⟨?_, by simp⟩
          intro c _
          simp only [openAfter_append, openAfter_switchCheck, openAfter]
          rw [List.filter_eq_nil_iff]
          intro x hx
          rcases hheld x hx with ⟨hne, h1 | h1⟩
          · simp [h1]
          · exact absurd (h1.trans hout) hne
        · simp only [hr, reduceCtorEq, if_false]
          refine ⟨by simp, ?_⟩
          intro v1 hv1
          simp only [Step.next.injEq] at hv1
          subst hv1
          refine ⟨?_, by simp, by simp⟩
          simp only [openAfter_append, openAfter_switchCheck, openAfter]
          intro x hx
          simp only [List.mem_cons] at hx
          rcases hx with hx | hx
          · subst hx
            exact ⟨by simp, Or.inr rfl⟩
          · rcases hheld x hx with ⟨hne, h1 | h1⟩
            · exact ⟨hne, Or.inl h1⟩
            · exact absurd (h1.trans hout) hne
      · simp only [hcO, if_false]
        by_cases hcM : c = 'M'
        · subst hcM
          simp only [if_true]
          cases val with
          | none => simp
          | some str =>
            simp only
            obtain ⟨h1, h2⟩ := npAfterSwitch_handles O sw (hexstrtoui L str).2
              { v with openMode := (hexstrtoui L str).1 } s held hheld
            refine ⟨h1, ?_⟩
            intro v1 hv1
            obtain ⟨hv, hopen⟩ := h2 v1 hv1
            rw [hopen, hv]
            exact ⟨hheld, by simp, by simp⟩
        · simp only [hcM, if_false]
          by_cases hcP : c = 'P'
          · subst hcP
            simp only [if_true]
            cases val with
            | none => simp
            | some str =>
              simp only
              obtain ⟨h1, h2⟩ := npAfterSwitch_handles O sw (hexstrtoui L str).2
                { v with pipeMode := (hexstrtoui L str).1 } s held hheld
              refine ⟨h1, ?_⟩
              intro v1 hv1
              obtain ⟨hv, hopen⟩ := h2 v1 hv1
              rw [hopen, hv]
              exact ⟨hheld, by simp, by simp⟩
          · simp only [hcP, if_false]
            by_cases hcB : c = 'B'
            · subst hcB
              simp only [if_true]
              cases val with
              | none => simp
              | some str =>
                simp only
                obtain ⟨h1, h2⟩ := npAfterSwitch_handles O sw (L.atoi str).2
                  { v with bufferSize := (L.atoi str).1 } s held hheld
                refine ⟨h1, ?_⟩
                intro v1 hv1
                obtain ⟨hv, hopen⟩ := h2 v1 hv1
                rw [hopen, hv]
                exact ⟨hheld, by simp, by simp⟩
            · simp only [hcB, if_false]
              refine ⟨?_, by simp⟩
              intro c _
              simp only [openAfter_append, openAfter_switchCheck]
              exact openAfter_close_both hheld _

theorem npOptions_handles {σ : Type} (L : Libc) (O : OS σ) :
    ∀ (opts : List String) (v : NpVars) (s : σ) (held : List HANDLE),
      HeldBy v.inFile v.outFile held →
      (v.inFile ≠ HANDLE.NULL → some 'I' ∉ switchLetters opts) →
      (v.outFile ≠ HANDLE.NULL → some 'O' ∉ switchLetters opts) →
      (switchLetters opts).count (some 'I') ≤ 1 →
      (switchLetters opts).count (some 'O') ≤ 1 →
      (∀ c, (npOptions L O opts v s).2.2 = Step.ret c →
        openAfter held (npOptions L O opts v s).1 = []) ∧
      (∀ v1, (npOptions L O opts v s).2.2 = Step.next v1 →
        HeldBy v1.inFile v1.outFile (openAfter held (npOptions L O opts v s).1)) := by
  intro opts
  induction opts using pairs_induction with
  | h0 =>
    intro v s held hheld _ _ _ _
    refine ⟨by simp [npOptions], ?_⟩
    intro v1 hv1
    simp only [npOptions, Step.next.injEq] at hv1
    subst hv1
    simpa [npOptions, openAfter] using hheld
  | h1 sw =>
    intro v s held hheld hI hO _ _
    have hI' : charAt sw 1 = some 'I' → v.inFile = HANDLE.NULL := by
      intro hc
      by_contra hne
      exact hI hne (by simp [switchLetters, hc])
    have hO' : charAt sw 1 = some 'O' → v.outFile = HANDLE.NULL := by
      intro hc
      by_contra hne
      exact hO hne (by simp [switchLetters, hc])
    obtain ⟨h1, h2⟩ := npOption_handles L O sw none v s held hheld hI' hO'
    simp only [npOptions]
    exact ⟨h1, fun v1 hv1 => (h2 v1 hv1).1⟩
  | h2 sw val rest ih =>
    intro v s held hheld hI hO cI cO
    have hI' : charAt sw 1 = some 'I' → v.inFile = HANDLE.NULL := by
      intro hc
      by_contra hne
      exact hI hne (by simp [switchLetters, hc])
    have hO' : charAt sw 1 = some 'O' → v.outFile = HANDLE.NULL := by
      intro hc
      by_contra hne
      exact hO hne (by simp [switchLetters, hc])
    obtain ⟨h1, h2⟩ := npOption_handles L O sw (some val) v s held hheld hI' hO'
    rcases hstep : npOption L O sw (some val) v s with ⟨evs, s1, st⟩
    rw [hstep] at h1 h2
    cases st with
    | ret code =>
      simp only [npOptions, hstep]
      exact ⟨h1, by simp⟩
    | undefined =>
      simp only [npOptions, hstep]
      exact ⟨by simp, by simp⟩
    | next v1 =>
      obtain ⟨hheld1, hin, hout⟩ := h2 v1 rfl
      simp only [switchLetters] at hI hO cI cO
      have cI1 : (switchLetters rest).count (some 'I') ≤ 1 :=
        le_trans (List.count_le_count_cons _ _ _) cI
      have cO1 : (switchLetters rest).count (some 'O') ≤ 1 :=
        le_trans (List.count_le_count_cons _ _ _) cO
      have hI1 : v1.inFile ≠ HANDLE.NULL → some 'I' ∉ switchLetters rest := by
        intro hne
        by_cases hc : charAt sw 1 = some 'I'
        · rw [hc, List.count_cons_self] at cI
          exact List.count_eq_zero.mp (by omega)
        · rw [hin hc] at hne
          exact fun hmem => hI hne (List.mem_cons_of_mem _ hmem)
      have hO1 : v1.outFile ≠ HANDLE.NULL → some 'O' ∉ switchLetters rest := by
        intro hne
        by_cases hc : charAt sw 1 = some 'O'
        · rw [hc, List.count_cons_self] at cO
          exact List.count_eq_zero.mp (by omega)
        · rw [hout hc] at hne
          exact fun hmem => hO hne (List.mem_cons_of_mem _ hmem)
      obtain ⟨h3, h4⟩ := ih v1 s1 (openAfter held evs) hheld1 hI1 hO1 cI1 cO1
      simp only [npOptions, hstep, openAfter_append]
      exact ⟨h3, h4⟩

theorem filter3_eq_nil {a b c : HANDLE} {held : List HANDLE}
    (h : ∀ x ∈ held, x = a ∨ x = b ∨ x = c) :
    ((held.filter (fun x => decide (x ≠ a))).filter (fun x => decide (x ≠ b))).filter
      (fun x => decide (x ≠ c)) = [] := by
  rw [List.filter_filter, List.filter_filter, List.filter_eq_nil_iff]
  intro x hx
  rcases h x hx with h1 | h1 | h1 <;> simp [h1]

theorem npServe_handles {σ : Type} (O : OS σ) (fuel : Nat) (target : String) (v : NpVars)
    (s : σ) (held : List HANDLE) (hheld : HeldBy v.inFile v.outFile held) :
    ∀ c, (npServe O fuel target v s).status = Status.exit c →
      openAfter held (npServe O fuel target v s).trace = [] := by
  intro c
  unfold npServe
  simp only
  rcases ofResult_cases (O.CreateNamedPipe s target (dword v.openMode) (dword v.pipeMode)
    (dword v.bufferSize)).1 with hr | ⟨n, hr⟩
  · simp only [hr, if_true]
    intro _
    simp only [openAfter]
    exact filter_ne_eq_nil_of_heldBy hheld
  · simp only [hr, reduceCtorEq, if_false]
    have hall : ∀ x ∈ HANDLE.valid n :: held,
        x = v.inFile ∨ x = v.outFile ∨ x = HANDLE.valid n := by
      intro x hx
      rcases List.mem_cons.mp hx with hx | hx
      · exact Or.inr (Or.inr hx)
      · rcases (hheld x hx).2 with h1 | h1
        · exact Or.inl h1
        · exact Or.inr (Or.inl h1)
    have hall' : ∀ x ∈ HANDLE.valid n :: held,
        x = (if v.inFile = HANDLE.NULL then HANDLE.valid n else v.inFile) ∨
        x = (if v.outFile = HANDLE.NULL then HANDLE.valid n else v.outFile) ∨
        x = HANDLE.valid n := by
      intro x hx
      rcases List.mem_cons.mp hx with hx | hx
      · exact Or.inr (Or.inr hx)
      · rcases hheld x hx with ⟨hne, h1 | h1⟩
        · left
          rw [if_neg (fun hnull => hne (h1.trans hnull))]
          exact h1
        · right; left
          rw [if_neg (fun hnull => hne (h1.trans hnull))]
          exact h1
    generalize (if v.inFile = HANDLE.NULL then HANDLE.valid n else v.inFile) = inF at hall'
    generalize (if v.outFile = HANDLE.NULL then HANDLE.valid n else v.outFile) = outF at hall'
    split_ifs
    · intro _
      simp only [openAfter]
      exact filter3_eq_nil hall
    · intro _
      simp only [openAfter]
      exact filter3_eq_nil hall
    · intro hst
      simp at hst
    · intro _
      rw [openAfter_append, openAfter_append]
      simp only [openAfter]
      rw [openAfter_relayLoop]
      exact filter3_eq_nil hall'

theorem createnp_handles {σ : Type} (L : Libc) (O : OS σ) (fuel : Nat) (argv : List String)
    (s : σ) (hI : (switchLetters (argv.drop 2)).count (some 'I') ≤ 1)
    (hO : (switchLetters (argv.drop 2)).count (some 'O') ≤ 1) :
    ∀ c, (createnp L O fuel argv s).status = Status.exit c →
      leaked (createnp L O fuel argv s).trace = [] := by
  intro c
  match argv with
  | [] => simp [createnp]
  | [_] => simp [createnp, leaked, openAfter]
  | _ :: target :: opts =>
    simp only [List.drop_succ_cons, List.drop_zero] at hI hO
    simp only [createnp, leaked]
    cases hc1 : charAt target 1 with
    | none => simp
    | some c1 =>
      simp only
      by_cases hq : c1 = '?'
      · simp [hq, openAfter]
      · simp only [hq, if_false]
        obtain ⟨h1, h2⟩ := npOptions_handles L O opts NpVars.init s [] (heldBy_nil _ _)
          (fun h => absurd rfl h) (fun h => absurd rfl h) hI hO
        rcases hopt : npOptions L O opts NpVars.init s with ⟨evs, s1, st⟩
        rw [hopt] at h1 h2
        cases st with
        | ret code =>
          simp only [openAfter_append, openAfter_targetCheck]
          intro _
          exact h1 code rfl
        | undefined => simp
        | next v =>
          simp only [openAfter_append, openAfter_targetCheck]
          intro hst
          exact npServe_handles O fuel target v s1 _ (h2 v rfl) c hst

/-! ## `createf`: returning runs that close what they opened -/

theorem cfAfterSwitch_handles {σ : Type} (sw : String) (errno : Nat) (v : CfVars) (s : σ)
    (held : List HANDLE) :
    (∀ c, (cfAfterSwitch (switchCheck sw) errno v s).2.2 = Step.ret c →
      plainExit (cfAfterSwitch (switchCheck sw) errno v s).1 = true) ∧
    (∀ v1, (cfAfterSwitch (switchCheck sw) errno v s).2.2 = Step.next v1 →
      v1 = v ∧ openAfter held (cfAfterSwitch (switchCheck sw) errno v s).1 = held) := by
  unfold cfAfterSwitch
  split
  · refine ⟨?_, by simp⟩
    intro c _
    simp [plainExit, Event.isPlainExit]
  · refine ⟨by simp, ?_⟩
    intro v1 hv1
    simp only [Step.next.injEq] at hv1
    exact ⟨hv1.symm, openAfter_switchCheck sw held⟩

theorem cfOption_handles {σ : Type} (L : Libc) (O : OS σ) (sw : String) (val : Option String)
    (v : CfVars) (s : σ) (held : List HANDLE)
    (hheld : HeldBy v.inFile v.outFile held)
    (hI : charAt sw 1 = some 'I' → v.inFile = HANDLE.NULL)
    (hO : charAt sw 1 = some 'O' → v.outFile = HANDLE.NULL) :
    (∀ c, (cfOption L O sw val v s).2.2 = Step.ret c →
      plainExit (cfOption L O sw val v s).1 = true ∨
        openAfter held (cfOption L O sw val v s).1 = []) ∧
    (∀ v1, (cfOption L O sw val v s).2.2 = Step.next v1 →
      HeldBy v1.inFile v1.outFile (openAfter held (cfOption L O sw val v s).1) ∧
      (charAt sw 1 ≠ some 'I' → v1.inFile = v.inFile) ∧
      (charAt sw 1 ≠ some 'O' → v1.outFile = v.outFile)) := by
  have numeric : ∀ (str : String) (v' : CfVars), v'.inFile = v.inFile → v'.outFile = v.outFile →
      (∀ c, (cfAfterSwitch (switchCheck sw) (hexstrtoui L str).2 v' s).2.2 = Step.ret c →
        plainExit (cfAfterSwitch (switchCheck sw) (hexstrtoui L str).2 v' s).1 = true ∨
          openAfter held (cfAfterSwitch (switchCheck sw) (hexstrtoui L str).2 v' s).1 = []) ∧
      (∀ v1, (cfAfterSwitch (switchCheck sw) (hexstrtoui L str).2 v' s).2.2 = Step.next v1 →
        HeldBy v1.inFile v1.outFile
          (openAfter held (cfAfterSwitch (switchCheck sw) (hexstrtoui L str).2 v' s).1) ∧
        (charAt sw 1 ≠ some 'I' → v1.inFile = v.inFile) ∧
        (charAt sw 1 ≠ some 'O' → v1.outFile = v.outFile)) := by
    intro str v' hin hout
    obtain ⟨h1, h2⟩ := cfAfterSwitch_handles sw (hexstrtoui L str).2 v' s held
    refine ⟨fun c hc => Or.inl (h1 c hc), ?_⟩
    intro v1 hv1
    obtain ⟨hv, hopen⟩ := h2 v1 hv1
    rw [hopen, hv, hin, hout]
    exact ⟨hheld, fun _ => rfl, fun _ => rfl⟩
  unfold cfOption
  cases hc : charAt sw 1 with
  | none => simp
  | some c =>
    simp only
    by_cases hcA : c = 'A'
    · subst hcA
      simp only [if_true]
      cases hsuf : val.bind (fun str => suffixFrom str 2) with
      | none => simp
      | some str =>
        simp only
        have hnum := numeric str { v with desiredAccess := (hexstrtoui L str).1 } rfl rfl
        rw [hc] at hnum
        exact hnum
    · simp only [hcA, if_false]
      by_cases hcS : c = 'S'
      · subst hcS
        simp only [if_true]
        cases val with
        | none => simp
        | some str =>
          simp only
          have hnum := numeric str { v with shareMode := (hexstrtoui L str).1 } rfl rfl
          rw [hc] at hnum
          exact hnum
      · simp only [hcS, if_false]
        by_cases hcD : c = 'D'
        · subst hcD
          simp only [if_true]
          cases val with
          | none => simp
          | some str =>
            simp only
            have hnum := numeric str { v with disposition := (hexstrtoui L str).1 } rfl rfl
            rw [hc] at hnum
            exact hnum
        · simp only [hcD, if_false]
          by_cases hcF : c = 'F'
          · subst hcF
            simp only [if_true]
            cases val with
            | none => simp
            | some str =>
              simp only
              have hnum := numeric str { v with flags := (hexstrtoui L str).1 } rfl rfl
              rw [hc] at hnum
              exact hnum
          · simp only [hcF, if_false]
            by_cases hcI : c = 'I'
            · subst hcI
              have hin : v.inFile = HANDLE.NULL := hI hc
              simp only [if_true]
              rcases ofResult_cases (O.CreateFile s val GENERIC_READ FILE_SHARE_READ
                OPEN_EXISTING FILE_ATTRIBUTE_NORMAL).1 with hr | ⟨n, hr⟩
              · simp only [hr, if_true]
                refine ⟨?_, by simp⟩
                intro c _
                right
                simp only [openAfter_append, openAfter_switchCheck, openAfter]
                rw [List.filter_eq_nil_iff]
                intro x hx
                rcases hheld x hx with ⟨hne, h1 | h1⟩
                · exact absurd (h1.trans hin) hne
                · simp [h1]
              · simp only [hr, reduceCtorEq, if_false]
                refine ⟨by simp, ?_⟩
                intro v1 hv1
                simp only [Step.next.injEq] at hv1
                subst hv1
                refine ⟨?_, by simp, by simp⟩
                simp only [openAfter_append, openAfter_switchCheck, openAfter]
                intro x hx
                simp only [List.mem_cons] at hx
                rcases hx with hx | hx
                · subst hx
                  exact ⟨by simp, Or.inl rfl⟩
                · rcases hheld x hx with ⟨hne, h1 | h1⟩
                  · exact absurd (h1.trans hin) hne
                  · exact ⟨hne, Or.inr h1⟩
            · simp only [hcI, if_false]
              by_cases hcO : c = 'O'
              · subst hcO
                have hout : v.outFile = HANDLE.NULL := hO hc
                simp only [if_true]
                rcases ofResult_cases (O.CreateFile s val GENERIC_WRITE 0 CREATE_ALWAYS
                  FILE_ATTRIBUTE_NORMAL).1 with hr | ⟨n, hr⟩
                · simp only [hr, if_true]
                  refine ⟨?_, by simp⟩
                  intro c _
                  right
                  simp only [openAfter_append, openAfter_switchCheck, openAfter]
                  rw [List.filter_eq_nil_iff]
                  intro x hx
                  rcases hheld x hx with ⟨hne, h1 | h1⟩
                  · simp [h1]
                  · exact absurd (h1.trans hout) hne
                · simp only [hr, reduceCtorEq, if_false]
                  refine ⟨by simp, ?_⟩
                  intro v1 hv1
                  simp only [Step.next.injEq] at hv1
                  subst hv1
                  refine ⟨?_, by simp, by simp⟩
                  simp only [openAfter_append, openAfter_switchCheck, openAfter]
                  intro x hx
                  simp only [List.mem_cons] at hx
                  rcases hx with hx | hx
                  · subst hx
                    exact ⟨by simp, Or.inr rfl⟩
                  · rcases hheld x hx with ⟨hne, h1 | h1⟩
                    · exact ⟨hne, Or.inl h1⟩
                    · exact absurd (h1.trans hout) hne
              · simp only [hcO, if_false]
                refine ⟨?_, by simp⟩
                intro c _
                exact Or.inl (by simp [plainExit, Event.isPlainExit])

theorem plainExit_append_right {a b : List Event} (h : plainExit b = true) :
    plainExit (a ++ b) = true := by
  unfold plainExit at h ⊢
  rw [List.any_append, h, Bool.or_true]

theorem cfOptions_handles {σ : Type} (L : Libc) (O : OS σ) :
    ∀ (opts : List String) (v : CfVars) (s : σ) (held : List HANDLE),
      HeldBy v.inFile v.outFile held →
      (v.inFile ≠ HANDLE.NULL → some 'I' ∉ switchLetters opts) →
      (v.outFile ≠ HANDLE.NULL → some 'O' ∉ switchLetters opts) →
      (switchLetters opts).count (some 'I') ≤ 1 →
      (switchLetters opts).count (some 'O') ≤ 1 →
      (∀ c, (cfOptions L O opts v s).2.2 = Step.ret c →
        plainExit (cfOptions L O opts v s).1 = true ∨
          openAfter held (cfOptions L O opts v s).1 = []) ∧
      (∀ v1, (cfOptions L O opts v s).2.2 = Step.next v1 →
        HeldBy v1.inFile v1.outFile (openAfter held (cfOptions L O opts v s).1)) := by
  intro opts
  induction opts using pairs_induction with
  | h0 =>
    intro v s held hheld _ _ _ _
    refine ⟨by simp [cfOptions], ?_⟩
    intro v1 hv1
    simp only [cfOptions, Step.next.injEq] at hv1
    subst hv1
    simpa [cfOptions, openAfter] using hheld
  | h1 sw =>
    intro v s held hheld hI hO _ _
    have hI' : charAt sw 1 = some 'I' → v.inFile = HANDLE.NULL := by
      intro hc
      by_contra hne
      exact hI hne (by simp [switchLetters, hc])
    have hO' : charAt sw 1 = some 'O' → v.outFile = HANDLE.NULL := by
      intro hc
      by_contra hne
      exact hO hne (by simp [switchLetters, hc])
    obtain ⟨h1, h2⟩ := cfOption_handles L O sw none v s held hheld hI' hO'
    simp only [cfOptions]
    exact ⟨h1, fun v1 hv1 => (h2 v1 hv1).1⟩
  | h2 sw val rest ih =>
    intro v s held hheld hI hO cI cO
    have hI' : charAt sw 1 = some 'I' → v.inFile = HANDLE.NULL := by
      intro hc
      by_contra hne
      exact hI hne (by simp [switchLetters, hc])
    have hO' : charAt sw 1 = some 'O' → v.outFile = HANDLE.NULL := by
      intro hc
      by_contra hne
      exact hO hne (by simp [switchLetters, hc])
    obtain ⟨h1, h2⟩ := cfOption_handles L O sw (some val) v s held hheld hI' hO'
    rcases hstep : cfOption L O sw (some val) v s with ⟨evs, s1, st⟩
    rw [hstep] at h1 h2
    cases st with
    | ret code =>
      simp only [cfOptions, hstep]
      exact ⟨h1, by simp⟩
    | undefined =>
      simp only [cfOptions, hstep]
      exact ⟨by simp, by simp⟩
    | next v1 =>
      obtain ⟨hheld1, hin, hout⟩ := h2 v1 rfl
      simp only [switchLetters] at hI hO cI cO
      have cI1 : (switchLetters rest).count (some 'I') ≤ 1 :=
        le_trans (List.count_le_count_cons _ _ _) cI
      have cO1 : (switchLetters rest).count (some 'O') ≤ 1 :=
        le_trans (List.count_le_count_cons _ _ _) cO
      have hI1 : v1.inFile ≠ HANDLE.NULL → some 'I' ∉ switchLetters rest := by
        intro hne
        by_cases hc : charAt sw 1 = some 'I'
        · rw [hc, List.count_cons_self] at cI
          exact List.count_eq_zero.mp (by omega)
        · rw [hin hc] at hne
          exact fun hmem => hI hne (List.mem_cons_of_mem _ hmem)
      have hO1 : v1.outFile ≠ HANDLE.NULL → some 'O' ∉ switchLetters rest := by
        intro hne
        by_cases hc : charAt sw 1 = some 'O'
        · rw [hc, List.count_cons_self] at cO
          exact List.count_eq_zero.mp (by omega)
        · rw [hout hc] at hne
          exact fun hmem => hO hne (List.mem_cons_of_mem _ hmem)
      obtain ⟨h3, h4⟩ := ih v1 s1 (openAfter held evs) hheld1 hI1 hO1 cI1 cO1
      simp only [cfOptions, hstep, openAfter_append]
      refine ⟨?_, h4⟩
      intro c hc
      rcases h3 c hc with h | h
      · exact Or.inl (plainExit_append_right h)
      · exact Or.inr h

theorem cfOpen_handles {σ : Type} (O : OS σ) (fuel : Nat) (target : String) (v : CfVars)
    (s : σ) (held : List HANDLE) (hheld : HeldBy v.inFile v.outFile held) :
    ∀ c, (cfOpen O fuel target v s).status = Status.exit c →
      openAfter held (cfOpen O fuel target v s).trace = [] := by
  intro c
  unfold cfOpen
  simp only
  by_cases hm : (O.malloc s v.bufferSize).1 = false
  · simp only [hm, if_true]
    intro _
    simp only [openAfter]
    exact filter_ne_eq_nil_of_heldBy hheld
  · simp only [hm, if_false]
    rcases ofResult_cases (O.CreateFile (O.malloc s v.bufferSize).2 (some target)
      (dword v.desiredAccess) (dword v.shareMode) (dword v.disposition) (dword v.flags)).1
      with hr | ⟨n, hr⟩
    · simp only [hr, if_true]
      intro _
      simp only [openAfter]
      exact filter_ne_eq_nil_of_heldBy hheld
    · simp only [hr, reduceCtorEq, if_false]
      have hall : ∀ x ∈ HANDLE.valid n :: held,
          x = v.inFile ∨ x = v.outFile ∨ x = HANDLE.valid n := by
        intro x hx
        rcases List.mem_cons.mp hx with hx | hx
        · exact Or.inr (Or.inr hx)
        · rcases (hheld x hx).2 with h1 | h1
          · exact Or.inl h1
          · exact Or.inr (Or.inl h1)
      have hall' : ∀ x ∈ HANDLE.valid n :: held,
          x = (if v.inFile = HANDLE.NULL then HANDLE.valid n else v.inFile) ∨
          x = (if v.outFile = HANDLE.NULL then HANDLE.valid n else v.outFile) ∨
          x = HANDLE.valid n := by
        intro x hx
        rcases List.mem_cons.mp hx with hx | hx
        · exact Or.inr (Or.inr hx)
        · rcases hheld x hx with ⟨hne, h1 | h1⟩
          · left
            rw [if_neg (fun hnull => hne (h1.trans hnull))]
            exact h1
          · right; left
            rw [if_neg (fun hnull => hne (h1.trans hnull))]
            exact h1
      generalize (if v.inFile = HANDLE.NULL then HANDLE.valid n else v.inFile) = inF at hall'
      generalize (if v.outFile = HANDLE.NULL then HANDLE.valid n else v.outFile) = outF at hall'
      split_ifs
      · intro hst
        simp at hst
      · intro _
        rw [openAfter_append, openAfter_append]
        simp only [openAfter]
        rw [openAfter_relayLoop]
        exact filter3_eq_nil hall'
      · intro _
        simp only [openAfter]
        exact filter3_eq_nil hall

theorem createf_handles {σ : Type} (L : Libc) (O : OS σ) (fuel : Nat) (argv : List String)
    (s : σ) (hI : (switchLetters (argv.drop 2)).count (some 'I') ≤ 1)
    (hO : (switchLetters (argv.drop 2)).count (some 'O') ≤ 1) :
    ∀ c, (createf L O fuel argv s).status = Status.exit c →
      plainExit (createf L O fuel argv s).trace = true ∨
        leaked (createf L O fuel argv s).trace = [] := by
  intro c
  match argv with
  | [] => simp [createf]
  | [_] => simp [createf, leaked, openAfter]
  | _ :: target :: opts =>
    simp only [List.drop_succ_cons, List.drop_zero] at hI hO
    simp only [createf, leaked]
    cases hc1 : charAt target 1 with
    | none => simp
    | some c1 =>
      simp only
      by_cases hq : c1 = '?'
      · simp [hq, openAfter]
      · simp only [hq, if_false]
        obtain ⟨h1, h2⟩ := cfOptions_handles L O opts CfVars.init s [] (heldBy_nil _ _)
          (fun h => absurd rfl h) (fun h => absurd rfl h) hI hO
        rcases hopt : cfOptions L O opts CfVars.init s with ⟨evs, s1, st⟩
        rw [hopt] at h1 h2
        cases st with
        | ret code =>
          simp only [openAfter_append, openAfter_targetCheck]
          intro _
          rcases h1 code rfl with h | h
          · exact Or.inl (plainExit_append_right h)
          · exact Or.inr h
        | undefined => simp
        | next v =>
          simp only [openAfter_append, openAfter_targetCheck]
          intro hst
          exact Or.inr (cfOpen_handles O fuel target v s1 _ (h2 v rfl) c hst)

/-! ## `callnp` issues no `CloseHandle` -/

theorem callOption_no_close {σ : Type} (L : Libc) (O : OS σ) (sw : String)
    (val : Option String) (v : CallVars) (s : σ) :
    ∀ h, Event.CloseHandle h ∉ (callOption L O sw val v s).1 := by
  intro h
  have hpre : Event.CloseHandle h ∉ switchCheck sw := by
    unfold switchCheck
    split <;> simp
  unfold callOption callAfterSwitch
  cases charAt sw 1 with
  | none => simpa using hpre
  | some c =>
    cases val with
    | none => simp only; split_ifs <;> simp [hpre]
    | some str => simp only; split_ifs <;> simp [hpre]

theorem callOptions_no_close {σ : Type} (L : Libc) (O : OS σ) :
    ∀ (opts : List String) (v : CallVars) (s : σ),
      ∀ h, Event.CloseHandle h ∉ (callOptions L O opts v s).1 := by
  intro opts
  induction opts using pairs_induction with
  | h0 => intro v s h; simp [callOptions]
  | h1 sw => intro v s h; simpa [callOptions] using callOption_no_close L O sw none v s h
  | h2 sw val rest ih =>
    intro v s h
    have h1 := callOption_no_close L O sw (some val) v s h
    rcases hstep : callOption L O sw (some val) v s with ⟨evs, s1, st⟩
    rw [hstep] at h1
    cases st with
    | next v1 =>
      simp only [callOptions, hstep, List.mem_append, not_or]
      exact ⟨h1, ih v1 s1 h⟩
    | ret code => simpa [callOptions, hstep] using h1
    | undefined => simpa [callOptions, hstep] using h1

theorem callBody_no_close {σ : Type} (O : OS σ) (target : String) (v : CallVars) (s : σ) :
    ∀ h, Event.CloseHandle h ∉ (callBody O target v s).trace := by
  intro h
  unfold callBody callWait callTransact
  simp only
  split_ifs <;> simp

theorem callnp_no_close {σ : Type} (L : Libc) (O : OS σ) (argv : List String) (s : σ) :
    ∀ h, Event.CloseHandle h ∉ (callnp L O argv s).trace := by
  intro h
  match argv with
  | [] => simp [callnp]
  | [_] => simp [callnp]
  | _ :: target :: opts =>
    simp only [callnp]
    cases hc1 : charAt target 1 with
    | none => simp
    | some c1 =>
      simp only
      have htc : Event.CloseHandle h ∉ targetCheck target c1 := by
        unfold targetCheck
        split <;> simp
      by_cases hq : c1 = '?'
      · simp [hq]
      · simp only [hq, if_false]
        have h1 := callOptions_no_close L O opts CallVars.init s h
        rcases hopt : callOptions L O opts CallVars.init s with ⟨evs, s1, st⟩
        rw [hopt] at h1
        cases st with
        | ret code => simp [htc, h1]
        | undefined => simp [htc, h1]
        | next v => simp [htc, h1, callBody_no_close O target v s1 h]

/-! ## Release of handles -/

/-- Claim C9 as stated fails on the code. `callnp` with an input file that
opens returns 1 with the file handle still open; `createf` returns through
`Error: no such option` with the input file still open; `createnp` given `/I`
twice returns with the first input file still open, and so it does given
`/I a -I b`. -/
theorem handles_left_open_at_return :
    ((callnp clib scriptOS ["callnp", "\\\\srv\\pipe\\x", "/I", "ping.bin"]
          clientFileScript).status = Status.exit 1 ∧
      leaked (callnp clib scriptOS ["callnp", "\\\\srv\\pipe\\x", "/I", "ping.bin"]
          clientFileScript).trace = [HANDLE.valid 3]) ∧
    ((createf clib scriptOS 5 ["createf", "\\\\s\\d\\f", "/I", "in.txt", "/X", "1"]
          fileScript).status = Status.exit 0 ∧
      leaked (createf clib scriptOS 5 ["createf", "\\\\s\\d\\f", "/I", "in.txt", "/X", "1"]
          fileScript).trace = [HANDLE.valid 3]) ∧
    ((createnp clib scriptOS 5 ["createnp", "\\\\.\\pipe\\x", "/I", "a", "/I", "b"]
          serverFilesScript).status = Status.exit 1 ∧
      leaked (createnp clib scriptOS 5 ["createnp", "\\\\.\\pipe\\x", "/I", "a", "/I", "b"]
          serverFilesScript).trace = [HANDLE.valid 3]) ∧
    ((createnp clib scriptOS 5 ["createnp", "\\\\.\\pipe\\x", "/I", "a", "-I", "b"]
          serverFilesScript).status = Status.exit 1 ∧
      leaked (createnp clib scriptOS 5 ["createnp", "\\\\.\\pipe\\x", "/I", "a", "-I", "b"]
          serverFilesScript).trace = [HANDLE.valid 3]) := by
  decide

/-- Claim C9, as amended. For every argument list in which at most one
argument in switch position (`argv[2]`, `argv[4]`, ...) has `I` as its second
character and at most one has `O` (the `switch` looks at the second character
alone, so `-I` counts as much as `/I`), every C library and every behaviour of
the operating system: when `main` of `createnp` returns, every handle the run
opened has been closed; the same holds when `main` of `createf` returns,
unless it returned through `Error: no such option` or through the `errno`
exit of the option loop (`plainExit`), of which nothing is said. `callnp`
issues no `CloseHandle` on any path. -/
theorem handles_released_on_return {σ : Type} (L : Libc) (O : OS σ) (fuel : Nat)
    (argv : List String) (s : σ)
    (hI : (switchLetters (argv.drop 2)).count (some 'I') ≤ 1)
    (hO : (switchLetters (argv.drop 2)).count (some 'O') ≤ 1) :
    (∀ c, (createnp L O fuel argv s).status = Status.exit c →
      leaked (createnp L O fuel argv s).trace = []) ∧
    (∀ c, (createf L O fuel argv s).status = Status.exit c →
      plainExit (createf L O fuel argv s).trace = false →
      leaked (createf L O fuel argv s).trace = []) ∧
    (∀ h, Event.CloseHandle h ∉ (callnp L O argv s).trace) := by
  refine ⟨createnp_handles L O fuel argv s hI hO, ?_, callnp_no_close L O argv s⟩
  intro c hc hno
  rcases createf_handles L O fuel argv s hI hO c hc with h | h
  · rw [hno] at h
    exact absurd h (by simp)
  · exact h

/-- Witness for C9 as amended: `createnp` with one `/I` and one `/O` returns 1
with nothing left open, and so does `createf`. -/
theorem handles_released_on_return_witness :
    leaked (createnp clib scriptOS 5
        ["createnp", "\\\\.\\pipe\\x", "/I", "in.txt", "/O", "out.txt"]
        serverFilesScript).trace = [] ∧
    leaked (createf clib scriptOS 5
        ["createf", "\\\\s\\d\\f", "/I", "in.txt", "/O", "out.txt"]
        { files := [some 3, some 5, some 7], mallocs := [true] }).trace = [] :=
  ⟨(handles_released_on_return clib scriptOS 5
      ["createnp", "\\\\.\\pipe\\x", "/I", "in.txt", "/O", "out.txt"]
      serverFilesScript (by decide) (by decide)).1 1 (by decide),
    (handles_released_on_return clib scriptOS 5
      ["createf", "\\\\s\\d\\f", "/I", "in.txt", "/O", "out.txt"]
      { files := [some 3, some 5, some 7], mallocs := [true] } (by decide) (by decide)).2.1 1
      (by decide) (by decide)⟩

/-! ## `callnp` never reports a failed open of the input file -/

theorem callOption_outFile {σ : Type} (L : Libc) (O : OS σ) (sw : String)
    (val : Option String) (v : CallVars) (s : σ)
    (hv : v.outFile ≠ HANDLE.INVALID_HANDLE_VALUE) :
    (∀ name, Event.printf (Diag.cannotOpenInFile name) ∉ (callOption L O sw val v s).1) ∧
    (∀ v1, (callOption L O sw val v s).2.2 = Step.next v1 →
      v1.outFile ≠ HANDLE.INVALID_HANDLE_VALUE) := by
  have hpre : ∀ name, Event.printf (Diag.cannotOpenInFile name) ∉ switchCheck sw := by
    intro name
    unfold switchCheck
    split <;> simp
  unfold callOption callAfterSwitch
  cases charAt sw 1 with
  | none => exact ⟨by simpa using hpre, by simp⟩
  | some c =>
    cases val with
    | none =>
      simp only
      split_ifs <;> refine ⟨by simp [hpre], ?_⟩ <;> intro v1 hv1 <;>
        simp only [Step.next.injEq, reduceCtorEq] at hv1 <;> subst hv1 <;> assumption
    | some str =>
      simp only
      split_ifs <;> refine ⟨by simp [hpre], ?_⟩ <;> intro v1 hv1 <;>
        simp only [Step.next.injEq, reduceCtorEq] at hv1 <;> subst hv1 <;> assumption

theorem callOptions_outFile {σ : Type} (L : Libc) (O : OS σ) :
    ∀ (opts : List String) (v : CallVars) (s : σ),
      v.outFile ≠ HANDLE.INVALID_HANDLE_VALUE →
      ∀ name, Event.printf (Diag.cannotOpenInFile name) ∉ (callOptions L O opts v s).1 := by
  intro opts
  induction opts using pairs_induction with
  | h0 => intro v s _ name; simp [callOptions]
  | h1 sw =>
    intro v s hv name
    simpa [callOptions] using (callOption_outFile L O sw none v s hv).1 name
  | h2 sw val rest ih =>
    intro v s hv name
    obtain ⟨h1, h2⟩ := callOption_outFile L O sw (some val) v s hv
    rcases hstep : callOption L O sw (some val) v s with ⟨evs, s1, st⟩
    rw [hstep] at h1 h2
    cases st with
    | next v1 =>
      simp only [callOptions, hstep, List.mem_append, not_or]
      exact ⟨h1 name, ih v1 s1 (h2 v1 rfl) name⟩
    | ret code => simpa [callOptions, hstep] using h1 name
    | undefined => simpa [callOptions, hstep] using h1 name

theorem callBody_no_open_diagnostic {σ : Type} (O : OS σ) (target : String) (v : CallVars)
    (s : σ) : ∀ name, Event.printf (Diag.cannotOpenInFile name) ∉ (callBody O target v s).trace := by
  intro name
  unfold callBody callWait callTransact
  simp only
  split_ifs <;> simp

/-- Claim C10, evaluated on the code. `callnp \\srv\pipe\x /I missing.txt`,
the open of the input file returns `INVALID_HANDLE_VALUE`: the test after the
open looks at `outFile`, so the run goes on, allocates both buffers, calls
`ReadFile` on the invalid handle and ends with `Error: failed to read from
inFile`. And no run of `callnp` at all, whatever the arguments and the
operating system, prints `Error: cannot open inFile`. -/
theorem callnp_input_open_failure_surfaces_as_read_failure :
    ((callnp clib scriptOS ["callnp", "\\\\srv\\pipe\\x", "/I", "missing.txt"]
        clientScript).trace =
      [Event.CreateFile (some "missing.txt") GENERIC_READ FILE_SHARE_READ OPEN_EXISTING
          FILE_ATTRIBUTE_NORMAL HANDLE.INVALID_HANDLE_VALUE,
        Event.malloc 65535 true,
        Event.malloc 65535 true,
        Event.ReadFile HANDLE.INVALID_HANDLE_VALUE 65535 0 [],
        Event.printf Diag.failedToReadFromInFile] ∧
      (callnp clib scriptOS ["callnp", "\\\\srv\\pipe\\x", "/I", "missing.txt"]
        clientScript).status = Status.exit 0) ∧
    (∀ (σ : Type) (L : Libc) (O : OS σ) (argv : List String) (s : σ) (name : Option String),
      Event.printf (Diag.cannotOpenInFile name) ∉ (callnp L O argv s).trace) := by
  refine ⟨by decide, ?_⟩
  intro σ L O argv s name
  match argv with
  | [] => simp [callnp]
  | [_] => simp [callnp]
  | _ :: target :: opts =>
    simp only [callnp]
    cases hc1 : charAt target 1 with
    | none => simp
    | some c1 =>
      simp only
      have htc : Event.printf (Diag.cannotOpenInFile name) ∉ targetCheck target c1 := by
        unfold targetCheck
        split <;> simp
      by_cases hq : c1 = '?'
      · simp [hq]
      · simp only [hq, if_false]
        have h1 := callOptions_outFile L O opts CallVars.init s (by simp [CallVars.init]) name
        rcases hopt : callOptions L O opts CallVars.init s with ⟨evs, s1, st⟩
        rw [hopt] at h1
        cases st with
        | ret code => simp [htc, h1]
        | undefined => simp [htc, h1]
        | next v => simp [htc, h1, callBody_no_open_diagnostic O target v s1 name]

/-! ## Reads of the argument vector -/

theorem passAccesses_upToArgcFromThird (valued fromThird : List Char) (i argc : Nat)
    (sw : String) (h : i < argc) :
    ∀ a ∈ passAccesses valued fromThird i sw, a.upToArgcFromThird argc = true := by
  intro a ha
  unfold passAccesses at ha
  simp only [List.mem_append, List.mem_cons, List.not_mem_nil, or_false] at ha
  rcases ha with (rfl | rfl | rfl | rfl) | ha
  · simp [Access.upToArgcFromThird]; omega
  · simp [Access.upToArgcFromThird, h]
  · simp [Access.upToArgcFromThird]; omega
  · simp [Access.upToArgcFromThird, h]
  · cases hc : charAt sw 1 with
    | none => simp [hc] at ha
    | some c =>
      simp only [hc, List.mem_append] at ha
      rcases ha with ha | ha
      · split at ha
        · simp only [List.mem_singleton] at ha
          subst ha
          simp [Access.upToArgcFromThird]
          omega
        · simp at ha
      · split at ha
        · simp only [List.mem_singleton] at ha
          subst ha
          simp [Access.upToArgcFromThird]
          omega
        · simp at ha

theorem passAccesses_upToArgc (valued : List Char) (i argc : Nat) (sw : String)
    (h : i < argc) : ∀ a ∈ passAccesses valued [] i sw, a.upToArgc argc = true := by
  intro a ha
  unfold passAccesses at ha
  simp only [List.mem_append, List.mem_cons, List.not_mem_nil, or_false] at ha
  rcases ha with (rfl | rfl | rfl | rfl) | ha
  · simp [Access.upToArgc]; omega
  · simp [Access.upToArgc, h]
  · simp [Access.upToArgc]; omega
  · simp [Access.upToArgc, h]
  · cases hc : charAt sw 1 with
    | none => simp [hc] at ha
    | some c =>
      simp only [hc, List.mem_append, List.not_mem_nil, if_false, or_false] at ha
      split at ha
      · simp only [List.mem_singleton] at ha
        subst ha
        simp [Access.upToArgc]
        omega
      · simp at ha

theorem loopAccesses_upToArgcFromThird {α σ : Type} (valued fromThird : List Char)
    (body : String → Option String → α → σ → List Event × σ × Step α) :
    ∀ (opts : List String) (i : Nat) (v : α) (s : σ),
      ∀ a ∈ loopAccesses valued fromThird body i opts v s,
        a.upToArgcFromThird (i + opts.length) = true := by
  intro opts
  induction opts using pairs_induction with
  | h0 => intro i v s a ha; simp [loopAccesses] at ha
  | h1 sw =>
    intro i v s a ha
    simp only [loopAccesses] at ha
    exact passAccesses_upToArgcFromThird valued fromThird i _ sw (by simp) a ha
  | h2 sw val rest ih =>
    intro i v s a ha
    simp only [loopAccesses, List.mem_append] at ha
    rcases ha with ha | ha
    · exact passAccesses_upToArgcFromThird valued fromThird i _ sw (by simp) a ha
    · rcases hstep : body sw (some val) v s with ⟨evs, s1, st⟩
      rw [hstep] at ha
      cases st with
      | next v1 =>
        have := ih (i + 2) v1 s1 a ha
        have hlen : i + (sw :: val :: rest).length = i + 2 + rest.length := by
          simp only [List.length_cons]
          omega
        rw [hlen]
        exact this
      | ret code => simp at ha
      | undefined => simp at ha

theorem loopAccesses_upToArgc {α σ : Type} (valued : List Char)
    (body : String → Option String → α → σ → List Event × σ × Step α) :
    ∀ (opts : List String) (i : Nat) (v : α) (s : σ),
      ∀ a ∈ loopAccesses valued [] body i opts v s, a.upToArgc (i + opts.length) = true := by
  intro opts
  induction opts using pairs_induction with
  | h0 => intro i v s a ha; simp [loopAccesses] at ha
  | h1 sw =>
    intro i v s a ha
    simp only [loopAccesses] at ha
    exact passAccesses_upToArgc valued i _ sw (by simp) a ha
  | h2 sw val rest ih =>
    intro i v s a ha
    simp only [loopAccesses, List.mem_append] at ha
    rcases ha with ha | ha
    · exact passAccesses_upToArgc valued i _ sw (by simp) a ha
    · rcases hstep : body sw (some val) v s with ⟨evs, s1, st⟩
      rw [hstep] at ha
      cases st with
      | next v1 =>
        have := ih (i + 2) v1 s1 a ha
        have hlen : i + (sw :: val :: rest).length = i + 2 + rest.length := by
          simp only [List.length_cons]
          omega
        rw [hlen]
        exact this
      | ret code => simp at ha
      | undefined => simp at ha

theorem createnpAccesses_upToArgc {σ : Type} (L : Libc) (O : OS σ) (argv : List String)
    (s : σ) : ∀ a ∈ createnpAccesses L O argv s, a.upToArgc argv.length = true := by
  intro a ha
  match argv with
  | [] => simp [createnpAccesses] at ha
  | [_] => simp [createnpAccesses] at ha
  | prog :: target :: opts =>
    simp only [createnpAccesses] at ha
    cases hc1 : charAt target 1 with
    | none => simp [hc1] at ha
    | some c1 =>
      simp only [hc1] at ha
      split at ha
      · simp at ha
      · have h := loopAccesses_upToArgc npValued (npOption L O) opts 2 NpVars.init s a ha
        have hlen : (prog :: target :: opts).length = 2 + opts.length := by
          simp only [List.length_cons]
          omega
        rw [hlen]
        exact h

theorem createfAccesses_upToArgcFromThird {σ : Type} (L : Libc) (O : OS σ)
    (argv : List String) (s : σ) :
    ∀ a ∈ createfAccesses L O argv s, a.upToArgcFromThird argv.length = true := by
  intro a ha
  match argv with
  | [] => simp [createfAccesses] at ha
  | [_] => simp [createfAccesses] at ha
  | prog :: target :: opts =>
    simp only [createfAccesses] at ha
    cases hc1 : charAt target 1 with
    | none => simp [hc1] at ha
    | some c1 =>
      simp only [hc1] at ha
      split at ha
      · simp at ha
      · have h := loopAccesses_upToArgcFromThird cfValued cfFromThird (cfOption L O) opts 2
          CfVars.init s a ha
        have hlen : (prog :: target :: opts).length = 2 + opts.length := by
          simp only [List.length_cons]
          omega
        rw [hlen]
        exact h

theorem callnpAccesses_upToArgc {σ : Type} (L : Libc) (O : OS σ) (argv : List String)
    (s : σ) : ∀ a ∈ callnpAccesses L O argv s, a.upToArgc argv.length = true := by
  intro a ha
  match argv with
  | [] => simp [callnpAccesses] at ha
  | [_] => simp [callnpAccesses] at ha
  | prog :: target :: opts =>
    simp only [callnpAccesses] at ha
    cases hc1 : charAt target 1 with
    | none => simp [hc1] at ha
    | some c1 =>
      simp only [hc1] at ha
      split at ha
      · simp at ha
      · have h := loopAccesses_upToArgc callValued (callOption L O) opts 2 CallVars.init s a ha
        have hlen : (prog :: target :: opts).length = 2 + opts.length := by
          simp only [List.length_cons]
          omega
        rw [hlen]
        exact h

/-- Claim C11, evaluated on the code. When the last argument is a switch that
takes a value, the loop body reads `argv[i]` after the increment with
`i = argc`: `createnp \\.\pipe\x /I` reads `argv[3]` with `argc = 3` and hands
that null pointer to `CreateFile`; `callnp \\srv\pipe\x /B` reads `argv[3]`
and hands it to `atoi`, which is undefined. When an argument in switch
position is the empty string, `argv[i][1]` lies past its terminator:
`createf \\s\d\f ""` reads `argv[2][1]` of a string whose terminator is
`argv[2][0]`. And `createf \\s\d\f /A 1` hands `&argv[3][2]` to `strtoul`,
one character past the terminator `argv[3][1]`. The overrun is never more
than that: in every run of `createnp` and of `callnp` every pointer read is of
`argv[0]` ... `argv[argc]` and every character read is of one of the first two
characters of an argument below `argc`; in every run of `createf` the same
holds but for the reads that start at the third character of `argv[0]` ...
`argv[argc]`. -/
theorem option_loop_reads_past_last_argument :
    (createnpAccesses clib scriptOS ["createnp", "\\\\.\\pipe\\x", "/I"] serverScript =
        [Access.arg 2, Access.char 2 0, Access.arg 2, Access.char 2 1, Access.arg 3] ∧
      Access.inBounds ["createnp", "\\\\.\\pipe\\x", "/I"] (Access.arg 3) = false ∧
      (createnp clib scriptOS 5 ["createnp", "\\\\.\\pipe\\x", "/I"] serverScript).trace.head?
        = some (Event.CreateFile none GENERIC_READ FILE_SHARE_READ OPEN_EXISTING
            FILE_ATTRIBUTE_NORMAL HANDLE.INVALID_HANDLE_VALUE)) ∧
    (callnpAccesses clib scriptOS ["callnp", "\\\\srv\\pipe\\x", "/B"] clientScript =
        [Access.arg 2, Access.char 2 0, Access.arg 2, Access.char 2 1, Access.arg 3] ∧
      Access.inBounds ["callnp", "\\\\srv\\pipe\\x", "/B"] (Access.arg 3) = false ∧
      (callnp clib scriptOS ["callnp", "\\\\srv\\pipe\\x", "/B"] clientScript).status
        = Status.undefined) ∧
    (createfAccesses clib scriptOS ["createf", "\\\\s\\d\\f", ""] fileScript =
        [Access.arg 2, Access.char 2 0, Access.arg 2, Access.char 2 1] ∧
      Access.inBounds ["createf", "\\\\s\\d\\f", ""] (Access.char 2 1) = false ∧
      (createf clib scriptOS 5 ["createf", "\\\\s\\d\\f", ""] fileScript).status
        = Status.undefined) ∧
    (createfAccesses clib scriptOS ["createf", "\\\\s\\d\\f", "/A", "1"] fileScript =
        [Access.arg 2, Access.char 2 0, Access.arg 2, Access.char 2 1, Access.arg 3,
          Access.char 3 2] ∧
      Access.inBounds ["createf", "\\\\s\\d\\f", "/A", "1"] (Access.char 3 2) = false ∧
      (createf clib scriptOS 5 ["createf", "\\\\s\\d\\f", "/A", "1"] fileScript).status
        = Status.undefined) ∧
    (∀ (σ : Type) (L : Libc) (O : OS σ) (argv : List String) (s : σ),
      (∀ a ∈ createnpAccesses L O argv s, a.upToArgc argv.length = true) ∧
      (∀ a ∈ createfAccesses L O argv s, a.upToArgcFromThird argv.length = true) ∧
      (∀ a ∈ callnpAccesses L O argv s, a.upToArgc argv.length = true)) := by
  refine ⟨by decide, by decide, by decide, by decide, ?_⟩
  intro σ L O argv s
  exact ⟨createnpAccesses_upToArgc L O argv s, createfAccesses_upToArgcFromThird L O argv s,
    callnpAccesses_upToArgc L O argv s⟩

end Pipes
